import Mathlib

/-!
Verification development for the bentoo-tools autoupdate subsystem.

This file shallowly embeds the Go source of the autoupdate package
(fallback advisor, schema validator, version-history extraction engine,
data-source discovery, rate limiter, analysis cache and applier) as
executable Lean definitions, and proves properties of them.

Conventions used throughout:
* Go strings are Lean `String`s; byte-level scanning is performed on the
  underlying `List Char` (all relevant inputs are ASCII).
* Go machine integers are modelled as `Int` (no arithmetic here overflows).
* Go functions returning `(T, error)` are modelled with `Except`/`Option`.
* External collaborators (the regexp matches of the Go standard library
  are re-implemented for the concrete patterns used by the source; the
  goquery/htmlquery selection engines, the JSON unmarshaller and the
  token-bucket library are modelled at their documented interfaces).
-/

namespace Bentoo

/-! ## Go string primitives

Re-implementations, over `List Char`, of the handful of Go `strings`
functions the embedded source uses. -/

/-- `strings.HasPrefix` on character lists. -/
def listHasPfx : List Char → List Char → Bool
  | _, [] => true
  | [], _ :: _ => false
  | c :: cs, p :: ps => c = p && listHasPfx cs ps

/-- Go `strings.HasPrefix`. -/
def hasPrefixGo (s pre : String) : Bool :=
  listHasPfx s.data pre.data

/-- Go `strings.TrimPrefix`: drops `pre` when it is a prefix, else returns `s`. -/
def trimPrefixGo (s pre : String) : String :=
  if hasPrefixGo s pre then ⟨s.data.drop pre.data.length⟩ else s

/-- Go `strings.HasSuffix`. -/
def hasSuffixGo (s suf : String) : Bool :=
  listHasPfx s.data.reverse suf.data.reverse

/-- Go `strings.TrimSuffix`. -/
def trimSuffixGo (s suf : String) : String :=
  if hasSuffixGo s suf then ⟨(s.data.reverse.drop suf.data.length).reverse⟩ else s

/-- The white-space characters recognised by Go's `unicode.IsSpace` that can
occur in the (Latin-1) inputs of this code base. -/
def isSpaceGo (c : Char) : Bool :=
  c = ' ' || c = '\t' || c = '\n' || c = '\x0b' || c = '\x0c' || c = '\r' ||
  c = '\x85' || c = '\xa0'

/-- Go `strings.TrimSpace`. -/
def trimSpaceGo (s : String) : String :=
  ⟨((s.data.dropWhile isSpaceGo).reverse.dropWhile isSpaceGo).reverse⟩

/-- Split on a single-character separator, Go `strings.Split(s, sep)` for a
one-character `sep`. -/
def splitOnCharList (sep : Char) : List Char → List (List Char)
  | [] => [[]]
  | c :: rest =>
    let r := splitOnCharList sep rest
    if c = sep then [] :: r
    else
      match r with
      | h :: t => (c :: h) :: t
      | [] => [[c]]

/-- Go `strings.Split` for a one-character separator, on `String`s. -/
def splitOnCharGo (sep : Char) (s : String) : List String :=
  (splitOnCharList sep s.data).map (fun l => ⟨l⟩)

/-- Go `strings.Contains` (substring search). -/
def containsSubstrList : List Char → List Char → Bool
  | l, sub => (l.tails.filter (fun t => listHasPfx t sub)) ≠ []

/-- Go `strings.Contains` on `String`s. -/
def containsGo (s sub : String) : Bool :=
  containsSubstrList s.data sub.data

/-! ## Fallback advisor (`internal/autoupdate/fallback.go`) -/

/-- `FallbackSuggestion` (fallback.go): a suggested fallback parser
configuration.  `Reliability` is the Go `ParserReliability` integer. -/
structure FallbackSuggestion where
  ParserType : String
  Reliability : Int
  Reason : String
  deriving Repr, DecidableEq

/-- Reliability constants from fallback.go. -/
def ReliabilityJSON : Int := 1
/-- Reliability constant for the HTML parser. -/
def ReliabilityHTML : Int := 2
/-- Reliability constant for the regex parser. -/
def ReliabilityRegex : Int := 3
/-- Reliability constant for the LLM parser. -/
def ReliabilityLLM : Int := 4

/-- Parser type constant `"json"`. -/
def ParserTypeJSON : String := "json"
/-- Parser type constant `"html"`. -/
def ParserTypeHTML : String := "html"
/-- Parser type constant `"regex"`. -/
def ParserTypeRegex : String := "regex"
/-- Parser type constant `"llm"`. -/
def ParserTypeLLM : String := "llm"

/-- `GetParserReliability` (fallback.go): reliability score of a parser type;
unknown parsers get `ReliabilityLLM + 1`. -/
def GetParserReliability (parserType : String) : Int :=
  if parserType = ParserTypeJSON then ReliabilityJSON
  else if parserType = ParserTypeHTML then ReliabilityHTML
  else if parserType = ParserTypeRegex then ReliabilityRegex
  else if parserType = ParserTypeLLM then ReliabilityLLM
  else ReliabilityLLM + 1

/-- The `allFallbacks` map literal of `SuggestFallbacks` (fallback.go), as a
lookup over its four fixed keys. -/
def allFallbacks (parserType : String) : FallbackSuggestion :=
  if parserType = ParserTypeJSON then
    ⟨ParserTypeJSON, ReliabilityJSON, "JSON provides structured, reliable version data"⟩
  else if parserType = ParserTypeHTML then
    ⟨ParserTypeHTML, ReliabilityHTML, "HTML parsing with CSS selectors or XPath is semi-structured"⟩
  else if parserType = ParserTypeRegex then
    ⟨ParserTypeRegex, ReliabilityRegex, "Regex pattern matching works on any text content"⟩
  else
    ⟨ParserTypeLLM, ReliabilityLLM, "LLM extraction handles complex or unstructured content"⟩

/-- `SuggestFallbacks` (fallback.go): walks the fixed reliability-ordered
type list and appends every entry different from the primary parser. -/
def SuggestFallbacks (primaryParser : String) : List FallbackSuggestion :=
  (([ParserTypeJSON, ParserTypeHTML, ParserTypeRegex, ParserTypeLLM].filter
      (fun t => t ≠ primaryParser)).map allFallbacks)

/-- `GetBestFallback` (fallback.go): first (most reliable) suggestion. -/
def GetBestFallback (primaryParser : String) : Option FallbackSuggestion :=
  (SuggestFallbacks primaryParser).head?

/-- One step of the inner `while` loop of the insertion sort in
`OrderFallbacksByReliability` (fallback.go): the new `key` element moves left
past every element whose rank is strictly greater, i.e. it is inserted in
front of the first strictly greater element of the (sorted) prefix. -/
def orderedInsertGo {α : Type} (r : α → Int) (key : α) : List α → List α
  | [] => [key]
  | x :: xs => if r key < r x then key :: x :: xs else x :: orderedInsertGo r key xs

/-- The insertion sort of `OrderFallbacksByReliability` (fallback.go): the
outer `for` loop inserts each successive element into the already-sorted
prefix; rendered as a left fold of `orderedInsertGo`.  The same algorithm is
what Go's `sort.Slice` runs for the short (< 12 element) slices built by
`DiscoverDataSources`. -/
def insertionSortGo {α : Type} (r : α → Int) (l : List α) : List α :=
  l.foldl (fun acc key => orderedInsertGo r key acc) []

/-- `OrderFallbacksByReliability` (fallback.go), value level: copies the
input and insertion-sorts the copy by `Reliability`. -/
def OrderFallbacksByReliability (fallbacks : List FallbackSuggestion) : List FallbackSuggestion :=
  insertionSortGo (fun f => f.Reliability) fallbacks

/-- A store of Go slices, one `List` per allocation address: the heap on
which `OrderFallbacksByReliability` runs, making the `make`/`copy`
allocation and the in-place mutation of only the new slice explicit. -/
def SliceStore : Type := Nat → List FallbackSuggestion

/-- `OrderFallbacksByReliability` (fallback.go) at the store level: `make`
allocates the fresh address, `copy` fills it from the input address, and the
insertion-sort loop mutates the fresh address only.  Returns the new store
and the address of the returned slice. -/
def OrderFallbacksByReliabilityH (σ : SliceStore) (inp fresh : Nat) : SliceStore × Nat :=
  let σ₁ : SliceStore := fun a => if a = fresh then σ inp else σ a
  let σ₂ : SliceStore := fun a =>
    if a = fresh then insertionSortGo (fun f => f.Reliability) (σ₁ fresh) else σ₁ a
  (σ₂, fresh)

/-! ### Insertion sort lemmas -/

theorem orderedInsertGo_append {α : Type} (r : α → Int) (key : α) (acc : List α)
    (h : ∀ x ∈ acc, r x ≤ r key) : orderedInsertGo r key acc = acc ++ [key] := by
  induction acc with
  | nil => rfl
  | cons x xs ih =>
    have hx : r x ≤ r key := h x (List.mem_cons_self x xs)
    simp only [orderedInsertGo, if_neg (by omega : ¬ r key < r x)]
    rw [ih (fun y hy => h y (List.mem_cons_of_mem x hy))]
    simp

theorem mem_orderedInsertGo {α : Type} (r : α → Int) (key : α) (l : List α) :
    ∀ z ∈ orderedInsertGo r key l, z = key ∨ z ∈ l := by
  induction l with
  | nil => intro z hz; simp [orderedInsertGo] at hz; exact Or.inl hz
  | cons w ws ihw =>
    intro z hz
    by_cases hw : r key < r w
    · simp only [orderedInsertGo, if_pos hw] at hz
      rcases List.mem_cons.1 hz with rfl | hz'
      · exact Or.inl rfl
      · exact Or.inr hz'
    · simp only [orderedInsertGo, if_neg hw] at hz
      rcases List.mem_cons.1 hz with rfl | hz'
      · exact Or.inr (List.mem_cons_self _ _)
      · rcases ihw z hz' with h1 | h2
        · exact Or.inl h1
        · exact Or.inr (List.mem_cons_of_mem _ h2)

theorem orderedInsertGo_sorted {α : Type} (r : α → Int) (key : α) (acc : List α)
    (h : acc.Pairwise (fun a b => r a ≤ r b)) :
    (orderedInsertGo r key acc).Pairwise (fun a b => r a ≤ r b) := by
  induction acc with
  | nil => simp [orderedInsertGo]
  | cons x xs ih =>
    rcases List.pairwise_cons.1 h with ⟨hx, hxs⟩
    by_cases hk : r key < r x
    · simp only [orderedInsertGo, if_pos hk]
      refine List.pairwise_cons.2 ⟨?_, h⟩
      intro y hy
      rcases List.mem_cons.1 hy with rfl | hy'
      · omega
      · have := hx y hy'
        omega
    · simp only [orderedInsertGo, if_neg hk]
      refine List.pairwise_cons.2 ⟨?_, ih hxs⟩
      intro y hy
      rcases mem_orderedInsertGo r key xs y hy with rfl | hy'
      · omega
      · exact hx y hy'

theorem insertionSortGo_foldl_sorted_id {α : Type} (r : α → Int) (l acc : List α)
    (h : (acc ++ l).Pairwise (fun a b => r a ≤ r b)) :
    l.foldl (fun acc key => orderedInsertGo r key acc) acc = acc ++ l := by
  induction l generalizing acc with
  | nil => simp
  | cons key rest ih =>
    have hacc : ∀ x ∈ acc, r x ≤ r key := by
      intro x hx
      have := (List.pairwise_append.1 h).2.2 x hx key (List.mem_cons_self _ _)
      exact this
    simp only [List.foldl_cons]
    rw [orderedInsertGo_append r key acc hacc]
    rw [ih (acc ++ [key]) (by simpa using h)]
    simp

/-- Insertion-sorting an already priority-sorted list is the identity. -/
theorem insertionSortGo_sorted_id {α : Type} (r : α → Int) (l : List α)
    (h : l.Pairwise (fun a b => r a ≤ r b)) : insertionSortGo r l = l := by
  simpa using insertionSortGo_foldl_sorted_id r l [] (by simpa using h)

theorem insertionSortGo_foldl_sorted {α : Type} (r : α → Int) (l acc : List α)
    (h : acc.Pairwise (fun a b => r a ≤ r b)) :
    (l.foldl (fun acc key => orderedInsertGo r key acc) acc).Pairwise
      (fun a b => r a ≤ r b) := by
  induction l generalizing acc with
  | nil => simpa
  | cons key rest ih =>
    simp only [List.foldl_cons]
    exact ih _ (orderedInsertGo_sorted r key acc h)

/-- The result of the Go insertion sort is sorted (non-decreasing ranks). -/
theorem insertionSortGo_sorted {α : Type} (r : α → Int) (l : List α) :
    (insertionSortGo r l).Pairwise (fun a b => r a ≤ r b) :=
  insertionSortGo_foldl_sorted r l [] (by simp)

/-! ## Schema validator (validator source file in `src/unnamed/part_002`) -/

/-- Errors of the validation/extraction flow, mirroring the `errors.New`
values and the `fmt.Errorf("%w", ...)` wrappings of the source. -/
inductive ValidationError where
  /-- `ErrExtractionFailed` wrapping the underlying extraction error. -/
  | extractionFailed (underlying : String)
  /-- `ErrVersionMismatch` embedding extracted and expected versions. -/
  | versionMismatch (extracted expected : String)
  deriving Repr, DecidableEq

/-- `ValidationResult` (validator source): outcome of testing a schema. -/
structure ValidationResult where
  Valid : Bool := false
  ExtractedVersion : String := ""
  EbuildVersion : String := ""
  VersionsMatch : Bool := false
  Error : Option ValidationError := none
  deriving Repr, DecidableEq

/-- `normalizeVersion` (validator source): trims surrounding white space. -/
def normalizeVersion (version : String) : String :=
  trimSpaceGo version

/-- The prefix list of `stripVersionPrefixGo`, longest first, exactly as in
the source's `stripVersionPrefix`. -/
def versionPrefixes : List String :=
  ["version-", "Version-", "release-", "Release-", "ver-", "Ver-", "ver.", "Ver.", "v", "V"]

/-- Helper: strip the first matching entry of a prefix list. -/
def stripFirstPfx (version : String) : List String → String
  | [] => version
  | p :: ps => if hasPrefixGo version p then trimPrefixGo version p else stripFirstPfx version ps

/-- `stripVersionPrefix` (validator source): removes the first matching
common version prefix (the Lean name carries a `Go` suffix). -/
def stripVersionPrefixGo (version : String) : String :=
  stripFirstPfx version versionPrefixes

/-- `compareVersionStrings` (validator source): normalize both versions,
compare directly, then compare with version prefixes stripped. -/
def compareVersionStrings (extracted ebuild : String) : Bool :=
  let normalizedExtracted := normalizeVersion extracted
  let normalizedEbuild := normalizeVersion ebuild
  if normalizedExtracted = normalizedEbuild then true
  else stripVersionPrefixGo normalizedExtracted = stripVersionPrefixGo normalizedEbuild

/-- `TestExtraction` (validator source).  `ParseVersion` — the strategy
dispatch of the extraction engine — is not part of the analysed sources, so
its outcome is the explicit argument `parseVersionResult`; `TestExtraction`
normalizes a successful extraction. -/
def TestExtraction (parseVersionResult : Except String String) : Except String String :=
  match parseVersionResult with
  | .error e => .error e
  | .ok version => .ok (normalizeVersion version)

/-- `ValidateSchema` (validator source): run extraction, compare the
extracted version with the ebuild version, mark valid on a match and record
a `versionMismatch` error otherwise. -/
def ValidateSchema (parseVersionResult : Except String String)
    (ebuildVersion : String) : ValidationResult :=
  let result : ValidationResult := { EbuildVersion := ebuildVersion }
  match TestExtraction parseVersionResult with
  | .error e => { result with Error := some (.extractionFailed e) }
  | .ok extractedVersion =>
    let result := { result with ExtractedVersion := extractedVersion }
    let versionsMatch := compareVersionStrings extractedVersion ebuildVersion
    let result := { result with VersionsMatch := versionsMatch }
    if versionsMatch then { result with Valid := true }
    else { result with Error := some (.versionMismatch extractedVersion ebuildVersion) }

/-- The normal form against which the source effectively compares versions:
trim, then strip one recognised version prefix. -/
def specNormalForm (s : String) : String :=
  stripVersionPrefixGo (normalizeVersion s)

theorem compareVersionStrings_eq_specNormalForm (a b : String) :
    compareVersionStrings a b = (specNormalForm a = specNormalForm b : Bool) := by
  unfold compareVersionStrings specNormalForm
  by_cases h : normalizeVersion a = normalizeVersion b
  · simp [h]
  · simp [h]

/-! ## Analysis cache

The `AnalysisCache` implementation is not among the analysed source files;
only its property tests are (`TestAnalysisCacheTTL`, `TestCacheBypass`).
The model below is written from the specification. -/

/-- `PackageConfig` (config.go): a package's declarative extraction
schema. -/
structure PackageConfig where
  URL : String := ""
  Parser : String := ""
  Path : String := ""
  Pattern : String := ""
  Binary : Bool := false
  FallbackURL : String := ""
  FallbackParser : String := ""
  FallbackPattern : String := ""
  LLMPrompt : String := ""
  Selector : String := ""
  XPath : String := ""
  VersionsPath : String := ""
  VersionsSelector : String := ""
  deriving Repr, DecidableEq

/-- Modelled from the spec: the default analysis-cache TTL of 24 hours
(`DefaultAnalysisCacheTTL`), in seconds; the implementation file is not
among the analysed sources. -/
def DefaultAnalysisCacheTTL : Int := 24 * 60 * 60

/-- Modelled from the spec: a cache entry holds the validated schema, the
endpoint URL, and the timestamp it was stored at (seconds). -/
structure AnalysisCacheEntry where
  Schema : PackageConfig
  Timestamp : Int
  URL : String
  deriving Repr, DecidableEq

/-- Modelled from the spec: the analysis cache maps package ids to entries;
the `now` field is the injectable clock (`WithAnalysisCacheNowFunc`). -/
structure AnalysisCache where
  Entries : List (String × AnalysisCacheEntry)
  now : Int

/-- Association-list lookup standing in for a Go map read. -/
def lookupEntry (entries : List (String × AnalysisCacheEntry)) (pkg : String) :
    Option AnalysisCacheEntry :=
  match entries.find? (fun e => e.1 = pkg) with
  | some e => some e.2
  | none => none

/-- Modelled from the spec: `Get(pkg)` is a hit only while
`now() - entry.timestamp < TTL` (strict, the boundary is a miss). -/
def AnalysisCache.Get (c : AnalysisCache) (pkg : String) : Option PackageConfig :=
  match lookupEntry c.Entries pkg with
  | none => none
  | some entry =>
    if c.now - entry.Timestamp < DefaultAnalysisCacheTTL then some entry.Schema else none

/-- Modelled from the spec: `GetWithBypass(pkg, true)` reports a miss
unconditionally and reads nothing; with `bypass=false` it behaves as
`Get`.  The cache contents are never mutated by reads. -/
def AnalysisCache.GetWithBypass (c : AnalysisCache) (pkg : String) (bypass : Bool) :
    Option PackageConfig :=
  if bypass then none else c.Get pkg

/-! ## Rate limiter (`internal/autoupdate/rate_limiter.go`)

The token buckets themselves come from `golang.org/x/time/rate`, an external
library; `GoRateLimiter` models its documented semantics: a bucket holds up
to `burst` tokens, starts full, refills at `limit` tokens per second, and a
non-blocking `Allow` consumes one token when at least one is available.
Time is rational seconds. -/

/-- Model of an `x/time/rate` `Limiter` value. -/
structure GoRateLimiter where
  limit : ℚ
  burst : ℚ
  tokens : ℚ
  last : ℚ
  deriving Repr, DecidableEq

/-- `rate.NewLimiter(rate.Every(interval), 1)`-style construction at clock
time `t`: the bucket starts with its full burst. -/
def newBucket (interval : ℚ) (burst : ℚ) (t : ℚ) : GoRateLimiter :=
  { limit := 1 / interval, burst := burst, tokens := burst, last := t }

/-- Advance a bucket to clock time `t`, refilling up to the burst cap. -/
def bucketAdvance (l : GoRateLimiter) (t : ℚ) : ℚ :=
  min l.burst (l.tokens + (t - l.last) * l.limit)

/-- Non-blocking `Allow` on a bucket at clock time `t`: consumes one token
if at least one has accumulated, else refuses without consuming. -/
def bucketAllow (l : GoRateLimiter) (t : ℚ) : Bool × GoRateLimiter :=
  let tok := bucketAdvance l t
  if 1 ≤ tok then (true, { l with tokens := tok - 1, last := t })
  else (false, l)

/-- `RateLimiter` (rate_limiter.go): one global LLM bucket plus lazily
created per-domain HTTP buckets. -/
structure RateLimiterS where
  llmLimiter : GoRateLimiter
  httpLimiters : List (String × GoRateLimiter)

/-- `NewRateLimiter` (rate_limiter.go): LLM bucket refills every 12 seconds
(5/minute) with burst 1; the HTTP bucket map starts empty. -/
def NewRateLimiter (t : ℚ) : RateLimiterS :=
  { llmLimiter := newBucket 12 1 t, httpLimiters := [] }

/-- `getHTTPLimiter` (rate_limiter.go): look up the domain's bucket,
creating a fresh 6-second-interval burst-1 bucket on first use. -/
def getHTTPLimiter (r : RateLimiterS) (domain : String) (t : ℚ) :
    GoRateLimiter × RateLimiterS :=
  match (r.httpLimiters.find? (fun e => e.1 = domain)) with
  | some e => (e.2, r)
  | none =>
    let limiter := newBucket 6 1 t
    (limiter, { r with httpLimiters := (domain, limiter) :: r.httpLimiters })

/-- Replace a domain's bucket in the map. -/
def setHTTPLimiter (r : RateLimiterS) (domain : String) (l : GoRateLimiter) : RateLimiterS :=
  { r with httpLimiters :=
      (domain, l) :: r.httpLimiters.filter (fun e => e.1 ≠ domain) }

/-- `AllowLLM` (rate_limiter.go) at clock time `t`. -/
def AllowLLM (r : RateLimiterS) (t : ℚ) : Bool × RateLimiterS :=
  let (ok, l) := bucketAllow r.llmLimiter t
  (ok, { r with llmLimiter := l })

/-- `AllowHTTP` (rate_limiter.go) at clock time `t`. -/
def AllowHTTP (r : RateLimiterS) (domain : String) (t : ℚ) : Bool × RateLimiterS :=
  let (limiter, r') := getHTTPLimiter r domain t
  let (ok, l) := bucketAllow limiter t
  (ok, setHTTPLimiter r' domain l)

/-! ## Version history extraction (version-history source file in
`src/unnamed/part_002`) -/

/-- `MaxVersionHistoryLimit` (version-history source): at most 10 versions. -/
def MaxVersionHistoryLimit : Nat := 10

/-- Error values of the extraction engine, mirroring the named errors the
version-history source wraps with `fmt.Errorf("%w", ...)`. -/
inductive ExtractionErr where
  | invalidJSONPath
  | jsonPathNotFound
  | parseFailed
  | noSelectorOrXPath
  | noElementFound
  | noVersionFound
  | invalidXPath
  deriving Repr, DecidableEq

/-- A generic parsed JSON tree, standing for the Go `interface{}` produced
by `json.Unmarshal`. -/
inductive JSONValue where
  | null
  | bool (b : Bool)
  | num (q : ℚ)
  | str (s : String)
  | arr (items : List JSONValue)
  | obj (fields : List (String × JSONValue))
  deriving Repr

/-- Modelled from the spec: `toString` of the JSON extraction engine (its
implementation file is not among the analysed sources) converts a generic
tree leaf to a string; only string leaves convert, every other shape is
skipped by the callers. -/
def toStringGo : JSONValue → Option String
  | .str s => some s
  | _ => none

/-- First field of an object with a given name (a Go map/JSON-object read). -/
def objField (fields : List (String × JSONValue)) (name : String) : Option JSONValue :=
  match fields.find? (fun f => f.1 = name) with
  | some f => some f.2
  | none => none

/-- Modelled from the spec: plain-field traversal of `navigateJSONPath`
(implementation file not among the analysed sources): the path is split on
each dot and followed through the object fields; a missing field or a
non-object node is a path-not-found failure. -/
def navigateFields : JSONValue → List String → Except ExtractionErr JSONValue
  | v, [] => .ok v
  | v, f :: fs =>
    match v with
    | .obj fields =>
      match objField fields f with
      | some v' => navigateFields v' fs
      | none => .error .jsonPathNotFound
    | _ => .error .jsonPathNotFound

/-- Modelled from the spec: `navigateJSONPath` on a dotted path. -/
def navigateJSONPath (v : JSONValue) (path : String) : Except ExtractionErr JSONValue :=
  navigateFields v (splitOnCharGo '.' path)

/-- One item of the `[*]` wildcard loop of `extractVersionsFromPath`
(version-history source): empty remaining path takes the item itself,
otherwise the remaining path is navigated; non-string values and failed
navigation are skipped. -/
def wildcardItemValue (remainingPath : String) (item : JSONValue) : Option String :=
  if remainingPath = "" then toStringGo item
  else
    match navigateJSONPath item remainingPath with
    | .error _ => none
    | .ok result => toStringGo result

/-- One item of the plain-array loop of `extractVersionsFromPath`
(version-history source): non-string items are skipped and empty strings
are filtered. -/
def arrayItemValue (item : JSONValue) : Option String :=
  match toStringGo item with
  | none => none
  | some version => if version ≠ "" then some version else none

/-- The collection loops of `extractVersionsFromPath` (version-history
source): append each extracted value and break as soon as
`MaxVersionHistoryLimit` entries were appended. -/
def collectBreakAfter {α : Type} (f : α → Option String) :
    List α → List String → List String
  | [], acc => acc
  | item :: rest, acc =>
    match f item with
    | none => collectBreakAfter f rest acc
    | some version =>
      let acc' := acc ++ [version]
      if MaxVersionHistoryLimit ≤ acc'.length then acc'
      else collectBreakAfter f rest acc'

/-- `extractVersionsFromPath` (version-history source). -/
def extractVersionsFromPath (path : String) (data : JSONValue) :
    Except ExtractionErr (List String) :=
  if hasPrefixGo path "[*]" then
    match data with
    | .arr items =>
      let remainingPath := trimPrefixGo (trimPrefixGo path "[*]") "."
      let versions := collectBreakAfter (wildcardItemValue remainingPath) items []
      if versions.length = 0 then .error .jsonPathNotFound else .ok versions
    | _ => .error .jsonPathNotFound
  else
    match navigateJSONPath data path with
    | .error e => .error e
    | .ok result =>
      match result with
      | .arr items =>
        let versions := collectBreakAfter arrayItemValue items []
        if versions.length = 0 then .error .jsonPathNotFound else .ok versions
      | _ => .error .jsonPathNotFound

/-- `JSONVersionHistoryExtractor.ExtractVersions` (version-history source):
reject an empty path, require parseable JSON (`parsed = none` models an
`json.Unmarshal` failure), extract along the path and truncate to
`MaxVersionHistoryLimit`. -/
def JSONExtractVersions (versionsPath : String) (parsed : Option JSONValue) :
    Except ExtractionErr (List String) :=
  if versionsPath = "" then .error .invalidJSONPath
  else
    match parsed with
    | none => .error .parseFailed
    | some data =>
      match extractVersionsFromPath versionsPath data with
      | .error e => .error e
      | .ok versions => .ok (versions.take MaxVersionHistoryLimit)

/-- The optional regex refinement applied per element by the HTML and XPath
history extractors (version-history source): on a successful, non-empty
regex extraction the text is replaced, otherwise kept.  `applyRegexFn`
stands for `HTMLParser.applyRegex`, whose implementation file is not among
the analysed sources (`none` = error). -/
def refineText (regex : String) (applyRegexFn : String → Option String)
    (text : String) : String :=
  if regex ≠ "" then
    match applyRegexFn text with
    | some extracted => if extracted ≠ "" then extracted else text
    | none => text
  else text

/-- One element of the HTML/XPath history loops (version-history source):
trim the element text, skip empties, apply the optional regex, keep
non-empty results. -/
def markupItemValue (regex : String) (applyRegexFn : String → Option String)
    (t : String) : Option String :=
  let text := trimSpaceGo t
  if text = "" then none
  else
    let text := refineText regex applyRegexFn text
    if text ≠ "" then some text else none

/-- The `selection.Each` loop of `HTMLVersionHistoryExtractor.ExtractVersions`
(version-history source): once the limit is reached every later element is
skipped (the closure `return` is a continue). -/
def collectSkipWhenFull (f : String → Option String) :
    List String → List String → List String
  | [], acc => acc
  | t :: rest, acc =>
    if MaxVersionHistoryLimit ≤ acc.length then collectSkipWhenFull f rest acc
    else
      match f t with
      | none => collectSkipWhenFull f rest acc
      | some v => collectSkipWhenFull f rest (acc ++ [v])

/-- The node loop of `XPathVersionHistoryExtractor.ExtractVersions`
(version-history source): breaks once the limit is reached. -/
def collectBreakWhenFull (f : String → Option String) :
    List String → List String → List String
  | [], acc => acc
  | t :: rest, acc =>
    if MaxVersionHistoryLimit ≤ acc.length then acc
    else
      match f t with
      | none => collectBreakWhenFull f rest acc
      | some v => collectBreakWhenFull f rest (acc ++ [v])

/-- `HTMLVersionHistoryExtractor.ExtractVersions` (version-history source).
`findResult` is the list of texts of the elements matched by the external
goquery engine for the configured selector (`none` = document parse
failure). -/
def HTMLExtractVersions (versionsSelector regex : String)
    (findResult : Option (List String))
    (applyRegexFn : String → Option String) : Except ExtractionErr (List String) :=
  if versionsSelector = "" then .error .noSelectorOrXPath
  else
    match findResult with
    | none => .error .parseFailed
    | some texts =>
      if texts.length = 0 then .error .noElementFound
      else
        let versions := collectSkipWhenFull (markupItemValue regex applyRegexFn) texts []
        if versions.length = 0 then .error .noVersionFound else .ok versions

/-- `XPathVersionHistoryExtractor.ExtractVersions` (version-history source).
`queryResult` is the outcome of the external htmlquery engine: `none` =
document parse failure, `some (.error ())` = invalid XPath, `some (.ok
texts)` = the matched nodes' inner texts. -/
def XPathExtractVersions (versionsXPath regex : String)
    (queryResult : Option (Except Unit (List String)))
    (applyRegexFn : String → Option String) : Except ExtractionErr (List String) :=
  if versionsXPath = "" then .error .noSelectorOrXPath
  else
    match queryResult with
    | none => .error .parseFailed
    | some (.error _) => .error .invalidXPath
    | some (.ok texts) =>
      if texts.length = 0 then .error .noElementFound
      else
        let versions := collectBreakWhenFull (markupItemValue regex applyRegexFn) texts []
        if versions.length = 0 then .error .noVersionFound else .ok versions

/-- The extractable string items of a JSON history extraction: exactly the
values the source loops would collect with the 10-entry limit removed. -/
def jsonSpecItems (path : String) (data : JSONValue) : List String :=
  if hasPrefixGo path "[*]" then
    match data with
    | .arr items =>
      items.filterMap (wildcardItemValue (trimPrefixGo (trimPrefixGo path "[*]") "."))
    | _ => []
  else
    match navigateJSONPath data path with
    | .ok (.arr items) => items.filterMap arrayItemValue
    | _ => []

/-! ### Collection loop lemmas -/

theorem collectBreakAfter_length_le {α : Type} (f : α → Option String)
    (l : List α) (acc : List String) (h : acc.length < MaxVersionHistoryLimit) :
    (collectBreakAfter f l acc).length ≤ MaxVersionHistoryLimit := by
  induction l generalizing acc with
  | nil => simpa [collectBreakAfter] using Nat.le_of_lt h
  | cons item rest ih =>
    simp only [collectBreakAfter]
    cases hf : f item with
    | none => exact ih acc h
    | some v =>
      by_cases hl : MaxVersionHistoryLimit ≤ (acc ++ [v]).length
      · simp only [if_pos hl]
        simp only [List.length_append, List.length_cons, List.length_nil]
        simp [List.length_append] at hl
        omega
      · simp only [if_neg hl]
        exact ih _ (by omega)

theorem collectBreakAfter_exact {α : Type} (f : α → Option String)
    (l : List α) (acc : List String)
    (h : acc.length + (l.filterMap f).length ≤ MaxVersionHistoryLimit) :
    collectBreakAfter f l acc = acc ++ l.filterMap f := by
  induction l generalizing acc with
  | nil => simp [collectBreakAfter]
  | cons item rest ih =>
    simp only [collectBreakAfter]
    cases hf : f item with
    | none =>
      rw [ih acc (by simpa [List.filterMap_cons, hf] using h)]
      simp [List.filterMap_cons, hf]
    | some v =>
      have hlen : (rest.filterMap f).length + acc.length + 1 ≤ MaxVersionHistoryLimit := by
        simp [List.filterMap_cons, hf] at h
        omega
      by_cases hl : MaxVersionHistoryLimit ≤ (acc ++ [v]).length
      · have hrest : (rest.filterMap f).length = 0 := by
          simp [List.length_append] at hl
          omega
        simp only [if_pos hl]
        simp [List.filterMap_cons, hf, List.length_eq_zero.1 hrest]
      · simp only [if_neg hl]
        rw [ih (acc ++ [v]) (by simp [List.length_append]; omega)]
        simp [List.filterMap_cons, hf]

theorem collectSkipWhenFull_length_le (f : String → Option String)
    (l : List String) (acc : List String) (h : acc.length ≤ MaxVersionHistoryLimit) :
    (collectSkipWhenFull f l acc).length ≤ MaxVersionHistoryLimit := by
  induction l generalizing acc with
  | nil => simpa [collectSkipWhenFull]
  | cons t rest ih =>
    simp only [collectSkipWhenFull]
    by_cases hl : MaxVersionHistoryLimit ≤ acc.length
    · simp only [if_pos hl]
      exact ih acc h
    · simp only [if_neg hl]
      cases hf : f t with
      | none => exact ih acc h
      | some v => exact ih _ (by simp [List.length_append]; omega)

theorem collectSkipWhenFull_exact (f : String → Option String)
    (l : List String) (acc : List String)
    (h : acc.length + (l.filterMap f).length ≤ MaxVersionHistoryLimit) :
    collectSkipWhenFull f l acc = acc ++ l.filterMap f := by
  induction l generalizing acc with
  | nil => simp [collectSkipWhenFull]
  | cons t rest ih =>
    simp only [collectSkipWhenFull]
    by_cases hl : MaxVersionHistoryLimit ≤ acc.length
    · cases hf : f t with
      | none =>
        simp only [if_pos hl]
        rw [ih acc (by simpa [List.filterMap_cons, hf] using h)]
        simp [List.filterMap_cons, hf]
      | some v =>
        exfalso
        simp [List.filterMap_cons, hf] at h
        omega
    · simp only [if_neg hl]
      cases hf : f t with
      | none =>
        rw [ih acc (by simpa [List.filterMap_cons, hf] using h)]
        simp [List.filterMap_cons, hf]
      | some v =>
        dsimp only
        rw [ih (acc ++ [v]) (by simp [List.filterMap_cons, hf, List.length_append] at h ⊢; omega)]
        simp [List.filterMap_cons, hf]

theorem collectBreakWhenFull_length_le (f : String → Option String)
    (l : List String) (acc : List String) (h : acc.length ≤ MaxVersionHistoryLimit) :
    (collectBreakWhenFull f l acc).length ≤ MaxVersionHistoryLimit := by
  induction l generalizing acc with
  | nil => simpa [collectBreakWhenFull]
  | cons t rest ih =>
    simp only [collectBreakWhenFull]
    by_cases hl : MaxVersionHistoryLimit ≤ acc.length
    · simpa [if_pos hl]
    · simp only [if_neg hl]
      cases hf : f t with
      | none => exact ih acc h
      | some v => exact ih _ (by simp [List.length_append]; omega)

theorem collectBreakWhenFull_exact (f : String → Option String)
    (l : List String) (acc : List String)
    (h : acc.length + (l.filterMap f).length ≤ MaxVersionHistoryLimit) :
    collectBreakWhenFull f l acc = acc ++ l.filterMap f := by
  induction l generalizing acc with
  | nil => simp [collectBreakWhenFull]
  | cons t rest ih =>
    simp only [collectBreakWhenFull]
    by_cases hl : MaxVersionHistoryLimit ≤ acc.length
    · cases hf : f t with
      | none =>
        simp only [if_pos hl]
        have hh : acc.length + (rest.filterMap f).length ≤ MaxVersionHistoryLimit := by
          simpa [List.filterMap_cons, hf] using h
        have hrest : rest.filterMap f = [] := by
          have hz : (rest.filterMap f).length = 0 := by omega
          exact List.length_eq_zero.1 hz
        simp [List.filterMap_cons, hf, hrest]
      | some v =>
        exfalso
        have hh : acc.length + ((rest.filterMap f).length + 1) ≤ MaxVersionHistoryLimit := by
          simpa [List.filterMap_cons, hf] using h
        omega
    · simp only [if_neg hl]
      cases hf : f t with
      | none =>
        rw [ih acc (by simpa [List.filterMap_cons, hf] using h)]
        simp [List.filterMap_cons, hf]
      | some v =>
        dsimp only
        rw [ih (acc ++ [v]) (by simp [List.filterMap_cons, hf, List.length_append] at h ⊢; omega)]
        simp [List.filterMap_cons, hf]

/-! ## Data-source discovery (discovery source file in
`src/internal/autoupdate/validator_test.go` pack, plus `ExtractGitHubInfo`
from `internal/autoupdate/ebuild_meta.go`)

The Go source matches URLs with `regexp`; the concrete patterns used there
are re-implemented below with Go's leftmost-first match semantics.  All the
patterns are alternations of literals followed by one-or-more character
classes, for which greedy matching is deterministic. -/

/-- `EbuildMetadata` (ebuild_meta.go). -/
structure EbuildMetadata where
  Package : String := ""
  Version : String := ""
  Homepage : String := ""
  SrcURI : String := ""
  Dependencies : List String := []
  IsLive : Bool := false
  IsBinary : Bool := false
  deriving Repr, DecidableEq

/-- The character class `\s` of Go's `regexp` syntax: `[\t\n\f\r ]`. -/
def isRegexSpace (c : Char) : Bool :=
  c = '\t' || c = '\n' || c = '\x0c' || c = '\r' || c = ' '

/-- Stop characters of the class `[^/\s"']` (githubRegex capture 2). -/
def stopSlashSpaceQuote (c : Char) : Bool :=
  c = '/' || isRegexSpace c || c = '"' || c = '\''

/-- Stop characters of the class `[^/\s"'#?]` (URL-package captures). -/
def stopURLName (c : Char) : Bool :=
  c = '/' || isRegexSpace c || c = '"' || c = '\'' || c = '#' || c = '?'

/-- Match a literal at the head of the input, returning the rest. -/
def matchLit (lit : List Char) (l : List Char) : Option (List Char) :=
  if listHasPfx l lit then some (l.drop lit.length) else none

/-- Match a `[^…]+` class greedily (non-empty maximal run of characters not
hitting `stop`), returning the captured run and the rest. -/
def capturePlus (stop : Char → Bool) (l : List Char) : Option (List Char × List Char) :=
  let cap := l.takeWhile (fun c => !stop c)
  if cap.isEmpty then none else some (cap, l.drop cap.length)

/-- Leftmost-first scan: try the position matcher at every suffix, earliest
position first (Go `regexp.FindStringSubmatch` discipline). -/
def scanFind {α : Type} (matchAt : List Char → Option α) : List Char → Option α
  | [] => matchAt []
  | c :: rest =>
    match matchAt (c :: rest) with
    | some r => some r
    | none => scanFind matchAt rest

/-- Try alternatives in order (regex alternation; the alternations in these
patterns are first-character disjoint, so no backtracking arises). -/
def firstSome {α : Type} : List (Option α) → Option α
  | [] => none
  | some a :: _ => some a
  | none :: rest => firstSome rest

/-- `github\.com[/:]([^/]+)/([^/\s"']+)` (ebuild_meta.go `githubRegex`),
match attempt at one position. -/
def githubMatchAt (stop2 : Char → Bool) (l : List Char) : Option (String × String) :=
  match matchLit "github.com".data l with
  | none => none
  | some l1 =>
    match l1 with
    | [] => none
    | c :: l2 =>
      if c = '/' || c = ':' then
        match capturePlus (fun ch => ch = '/') l2 with
        | none => none
        | some (owner, l3) =>
          match matchLit "/".data l3 with
          | none => none
          | some l4 =>
            match capturePlus stop2 l4 with
            | none => none
            | some (repo, _) => some (⟨owner⟩, ⟨repo⟩)
      else none

/-- `githubRegex.FindStringSubmatch` (ebuild_meta.go): capture 2 uses the
class `[^/\s"']`. -/
def githubFind (s : String) : Option (String × String) :=
  scanFind (githubMatchAt stopSlashSpaceQuote) s.data

/-- `githubURLRegex.MatchString` (discovery source): same pattern with
capture 2 class `[^/\s"'#?]`. -/
def githubURLMatch (s : String) : Bool :=
  (scanFind (githubMatchAt stopURLName) s.data).isSome

/-- `pypi\.(?:org|io|python\.org)/project/([^/\s"'#?]+)` (discovery source
`pypiURLRegex`), match attempt at one position. -/
def pypiURLMatchAt (l : List Char) : Option String :=
  match matchLit "pypi.".data l with
  | none => none
  | some l1 =>
    match firstSome
        [matchLit "org".data l1, matchLit "io".data l1, matchLit "python.org".data l1] with
    | none => none
    | some l2 =>
      match matchLit "/project/".data l2 with
      | none => none
      | some l3 =>
        match capturePlus stopURLName l3 with
        | none => none
        | some (name, _) => some ⟨name⟩

/-- `pypiURLRegex.FindStringSubmatch`, first capture. -/
def pypiURLFind (s : String) : Option String :=
  scanFind pypiURLMatchAt s.data

/-- Greedy `([^/]+)-[\d]` with backtracking: the longest non-empty non-slash
capture that is immediately followed by a dash and a digit. -/
def tryDashDigit (l : List Char) : Nat → Option (List Char)
  | 0 => none
  | k + 1 =>
    match l.drop (k + 1) with
    | c1 :: c2 :: _ =>
      if c1 = '-' && c2.isDigit then some (l.take (k + 1)) else tryDashDigit l k
    | _ => tryDashDigit l k

/-- The `.*?/([^/]+)-[\d]` tail of `pypiFilesRegex`: a lazy any-run (no
newlines), a slash, then the greedy dash-digit capture. -/
def lazySlashDashDigit : List Char → Option String
  | [] => none
  | c :: rest =>
    match
      (if c = '/' then
        match tryDashDigit rest ((rest.takeWhile (fun ch => ch ≠ '/')).length) with
        | some cap => some (⟨cap⟩ : String)
        | none => none
      else none) with
    | some r => some r
    | none => if c = '\n' then none else lazySlashDashDigit rest

/-- `files\.pythonhosted\.org/packages/.*?/([^/]+)-[\d]` (discovery source
`pypiFilesRegex`), match attempt at one position. -/
def pypiFilesMatchAt (l : List Char) : Option String :=
  match matchLit "files.pythonhosted.org/packages/".data l with
  | none => none
  | some l1 => lazySlashDashDigit l1

/-- `pypiFilesRegex.FindStringSubmatch`, first capture. -/
def pypiFilesFind (s : String) : Option String :=
  scanFind pypiFilesMatchAt s.data

/-- `(?:npmjs\.(?:org|com)|registry\.npmjs\.org)/(?:package/)?([^/\s"'#?]+)`
(discovery source `npmURLRegex`), match attempt at one position.  The
optional `package/` group is greedy: it is consumed first and given back
when the trailing capture cannot match. -/
def npmMatchAt (l : List Char) : Option String :=
  match firstSome
      [firstSome [matchLit "npmjs.org".data l, matchLit "npmjs.com".data l],
       matchLit "registry.npmjs.org".data l] with
  | none => none
  | some l1 =>
    match matchLit "/".data l1 with
    | none => none
    | some l2 =>
      match matchLit "package/".data l2 with
      | some l3 =>
        match capturePlus stopURLName l3 with
        | some (name, _) => some ⟨name⟩
        | none =>
          match capturePlus stopURLName l2 with
          | some (name, _) => some ⟨name⟩
          | none => none
      | none =>
        match capturePlus stopURLName l2 with
        | some (name, _) => some ⟨name⟩
        | none => none

/-- `npmURLRegex.FindStringSubmatch`, first capture. -/
def npmFind (s : String) : Option String :=
  scanFind npmMatchAt s.data

/-- `crates\.io/crates/([^/\s"'#?]+)` (discovery source `cratesURLRegex`),
match attempt at one position. -/
def cratesMatchAt (l : List Char) : Option String :=
  match matchLit "crates.io/crates/".data l with
  | none => none
  | some l1 =>
    match capturePlus stopURLName l1 with
    | none => none
    | some (name, _) => some ⟨name⟩

/-- `cratesURLRegex.FindStringSubmatch`, first capture. -/
def cratesFind (s : String) : Option String :=
  scanFind cratesMatchAt s.data

/-- `pythonDepRegex.MatchString`: `dev-python/|python-`. -/
def pythonDepMatch (dep : String) : Bool :=
  containsGo dep "dev-python/" || containsGo dep "python-"

/-- `nodeDepRegex.MatchString`: `net-libs/nodejs|dev-nodejs/`. -/
def nodeDepMatch (dep : String) : Bool :=
  containsGo dep "net-libs/nodejs" || containsGo dep "dev-nodejs/"

/-- `rustDepRegex.MatchString`: `dev-lang/rust|virtual/rust`. -/
def rustDepMatch (dep : String) : Bool :=
  containsGo dep "dev-lang/rust" || containsGo dep "virtual/rust"

/-- `cleanRepoName` (ebuild_meta.go). -/
def cleanRepoName (repo : String) : String :=
  trimSuffixGo (trimSuffixGo repo ".git") "/"

/-- `ExtractGitHubInfo` (ebuild_meta.go): HOMEPAGE first, then SRC_URI. -/
def ExtractGitHubInfo (meta : EbuildMetadata) : Option (String × String) :=
  match githubFind meta.Homepage with
  | some (owner, repo) => some (owner, cleanRepoName repo)
  | none =>
    match githubFind meta.SrcURI with
    | some (owner, repo) => some (owner, cleanRepoName repo)
    | none => none

/-- `DataSource` (discovery source).  The Go field `Type` is rendered as
`SrcType` (`Type` is a Lean keyword). -/
structure DataSource where
  URL : String
  SrcType : String
  Priority : Int
  ContentType : String
  deriving Repr, DecidableEq

/-- Priority of a user-provided URL. -/
def PriorityProvided : Int := 0
/-- Priority of the GitHub releases API source. -/
def PriorityGitHub : Int := 10
/-- Priority of the PyPI API source. -/
def PriorityPyPI : Int := 20
/-- Priority of the npm registry source. -/
def PriorityNPM : Int := 20
/-- Priority of the crates.io source. -/
def PriorityCrates : Int := 20
/-- Priority of the homepage fallback source. -/
def PriorityHomepage : Int := 100

/-- Content type constant for JSON endpoints. -/
def ContentTypeJSON : String := "application/json"
/-- Content type constant for markup endpoints. -/
def ContentTypeHTML : String := "text/html"

/-- `detectContentType` (discovery source): known JSON URL fragments, else
markup. -/
def detectContentType (url : String) : String :=
  if ["api.github.com", "pypi.org/pypi/", "registry.npmjs.org", "crates.io/api/",
      ".json"].any (fun pattern => containsGo url pattern) then
    ContentTypeJSON
  else ContentTypeHTML

/-- `isValidURL` (discovery source). -/
def isValidURL (url : String) : Bool :=
  hasPrefixGo url "http://" || hasPrefixGo url "https://"

/-- `discoverGitHubSource` (discovery source): a GitHub releases API
endpoint for the extracted owner/repo. -/
def discoverGitHubSource (meta : EbuildMetadata) : Option DataSource :=
  (ExtractGitHubInfo meta).map (fun info =>
    { URL := "https://api.github.com/repos/" ++ info.1 ++ "/" ++ info.2 ++ "/releases",
      SrcType := "github", Priority := PriorityGitHub, ContentType := ContentTypeJSON })

/-- `createPyPISource` (discovery source). -/
def createPyPISource (pkgName : String) : DataSource :=
  { URL := "https://pypi.org/pypi/" ++ pkgName ++ "/json",
    SrcType := "pypi", Priority := PriorityPyPI, ContentType := ContentTypeJSON }

/-- `extractPyPIPackageName` (discovery source): `dev-python/x` gives `x`,
everything else the empty string. -/
def extractPyPIPackageName (pkg : String) : String :=
  match splitOnCharGo '/' pkg with
  | [category, name] => if category = "dev-python" then name else ""
  | _ => ""

/-- The package-name resolution of `discoverPyPISource` (discovery source):
PyPI URL in HOMEPAGE, then in SRC_URI, then a pythonhosted files URL in
SRC_URI, then — given a Python dependency — the package atom itself. -/
def pypiNameOf (meta : EbuildMetadata) : Option String :=
  match pypiURLFind meta.Homepage with
  | some pkgName => some pkgName
  | none =>
    match pypiURLFind meta.SrcURI with
    | some pkgName => some pkgName
    | none =>
      match pypiFilesFind meta.SrcURI with
      | some pkgName => some pkgName
      | none =>
        if meta.Dependencies.any pythonDepMatch then
          if extractPyPIPackageName meta.Package ≠ "" then
            some (extractPyPIPackageName meta.Package)
          else none
        else none

/-- `discoverPyPISource` (discovery source): every successful branch builds
`createPyPISource` of the resolved name. -/
def discoverPyPISource (meta : EbuildMetadata) : Option DataSource :=
  (pypiNameOf meta).map createPyPISource

/-- `createNPMSource` (discovery source). -/
def createNPMSource (pkgName : String) : DataSource :=
  { URL := "https://registry.npmjs.org/" ++ pkgName,
    SrcType := "npm", Priority := PriorityNPM, ContentType := ContentTypeJSON }

/-- `extractNPMPackageName` (discovery source): only `dev-nodejs`. -/
def extractNPMPackageName (pkg : String) : String :=
  match splitOnCharGo '/' pkg with
  | [category, name] => if category = "dev-nodejs" then name else ""
  | _ => ""

/-- The package-name resolution of `discoverNPMSource` (discovery source). -/
def npmNameOf (meta : EbuildMetadata) : Option String :=
  match npmFind meta.Homepage with
  | some pkgName => some pkgName
  | none =>
    match npmFind meta.SrcURI with
    | some pkgName => some pkgName
    | none =>
      if meta.Dependencies.any nodeDepMatch then
        if extractNPMPackageName meta.Package ≠ "" then
          some (extractNPMPackageName meta.Package)
        else none
      else none

/-- `discoverNPMSource` (discovery source). -/
def discoverNPMSource (meta : EbuildMetadata) : Option DataSource :=
  (npmNameOf meta).map createNPMSource

/-- `createCratesSource` (discovery source). -/
def createCratesSource (crateName : String) : DataSource :=
  { URL := "https://crates.io/api/v1/crates/" ++ crateName,
    SrcType := "crates", Priority := PriorityCrates, ContentType := ContentTypeJSON }

/-- `extractCrateName` (discovery source): only `dev-rust`. -/
def extractCrateName (pkg : String) : String :=
  match splitOnCharGo '/' pkg with
  | [category, name] => if category = "dev-rust" then name else ""
  | _ => ""

/-- The crate-name resolution of `discoverCratesSource` (discovery source). -/
def cratesNameOf (meta : EbuildMetadata) : Option String :=
  match cratesFind meta.Homepage with
  | some crateName => some crateName
  | none =>
    match cratesFind meta.SrcURI with
    | some crateName => some crateName
    | none =>
      if meta.Dependencies.any rustDepMatch then
        if extractCrateName meta.Package ≠ "" then
          some (extractCrateName meta.Package)
        else none
      else none

/-- `discoverCratesSource` (discovery source). -/
def discoverCratesSource (meta : EbuildMetadata) : Option DataSource :=
  (cratesNameOf meta).map createCratesSource

/-- `isURLCoveredBySource` (discovery source): the homepage URL is covered
when an already discovered source's pattern matches it. -/
def isURLCoveredBySource (url : String) (sources : List DataSource) : Bool :=
  sources.any (fun source =>
    if source.SrcType = "github" then githubURLMatch url
    else if source.SrcType = "pypi" then (pypiURLFind url).isSome
    else if source.SrcType = "npm" then (npmFind url).isSome
    else if source.SrcType = "crates" then (cratesFind url).isSome
    else false)

/-- The provided-URL source appended first by `DiscoverDataSources`. -/
def providedSources (providedURL : String) : List DataSource :=
  if providedURL ≠ "" then
    [{ URL := providedURL, SrcType := "provided", Priority := PriorityProvided,
       ContentType := detectContentType providedURL }]
  else []

/-- The homepage fallback appended last by `DiscoverDataSources`, given the
sources discovered so far. -/
def homepageSources (meta : EbuildMetadata) (sources : List DataSource) : List DataSource :=
  if meta.Homepage ≠ "" && isValidURL meta.Homepage &&
      !(isURLCoveredBySource meta.Homepage sources) then
    [{ URL := meta.Homepage, SrcType := "homepage", Priority := PriorityHomepage,
       ContentType := ContentTypeHTML }]
  else []

/-- The `sources` slice of `DiscoverDataSources` (discovery source) just
before its `sort.Slice` call: provided URL, GitHub, PyPI, npm, crates.io and
homepage fallback, in the append order of the source. -/
def discoveryOrderList (meta : EbuildMetadata) (providedURL : String) : List DataSource :=
  let sources := providedSources providedURL ++ (discoverGitHubSource meta).toList ++
    (discoverPyPISource meta).toList ++ (discoverNPMSource meta).toList ++
    (discoverCratesSource meta).toList
  sources ++ homepageSources meta sources

/-- `DiscoverDataSources` (discovery source): build the candidate list and
sort it by priority (`sort.Slice`, which runs a plain insertion sort for
slices this short). -/
def DiscoverDataSources (meta : EbuildMetadata) (providedURL : String) : List DataSource :=
  insertionSortGo (fun s => s.Priority) (discoveryOrderList meta providedURL)

/-! ## Applier (applier source file in `src/unnamed/part_002`)

The pending ledger (`PendingList`) is an external collaborator keyed by
package (its implementation file is not among the analysed sources): its
`Get` and `SetStatus` operations, the file-system outcomes, the injected
confirmation function, the privilege-tool lookup and the external command
results enter the embedding through `ApplyEnv`.  The embedding additionally
records, as a trace, every `SetStatus` call `Apply` makes and whether the
privileged compile command was executed. -/

/-- Modelled from the spec: ledger status values (`StatusPending`,
`StatusValidated`, `StatusFailed`); the `PendingList` implementation file is
not among the analysed sources. -/
inductive PendingStatus where
  | pending
  | validated
  | failed
  deriving Repr, DecidableEq

/-- Modelled from the spec: a `PendingUpdate` ledger row. -/
structure PendingUpdate where
  Package : String := ""
  CurrentVersion : String := ""
  NewVersion : String := ""
  Status : PendingStatus := .pending
  deriving Repr, DecidableEq

/-- The error values `Apply`/`runCompile` (applier source) can produce,
with wrapping constructors for the `fmt.Errorf("%w", ...)` combinations. -/
inductive ApplyError where
  | packageNotInPending
  | copyFailed (msg : String)
  | manifestFailed (msg : String)
  | statusUpdateFailed (msg : String)
  | alsoStatusUpdateFailed (base : ApplyError) (msg : String)
  | userDeclined
  | noPrivilegeEscalation
  | invalidPackageName (pkg : String)
  | compileFailed (msg : String)
  deriving Repr, DecidableEq

/-- The `Error()` rendering of an `ApplyError`, used by `Apply` as the
`SetStatus` detail string.  The strings of the `errors.New` values are the
ones in the applier source. -/
def ApplyError.message : ApplyError → String
  | .packageNotInPending => "package not in pending list"
  | .copyFailed msg => "failed to copy ebuild: " ++ msg
  | .manifestFailed msg => "ebuild manifest command failed: " ++ msg
  | .statusUpdateFailed msg => "failed to update status: " ++ msg
  | .alsoStatusUpdateFailed base msg =>
    base.message ++ " (also failed to update status: " ++ msg ++ ")"
  | .userDeclined => "user declined compile test"
  | .noPrivilegeEscalation => "no privilege escalation tool available (sudo or doas)"
  | .invalidPackageName pkg => "invalid package name format: " ++ pkg
  | .compileFailed msg => "compile test failed: " ++ msg

/-- `ApplyResult` (applier source). -/
structure ApplyResult where
  Package : String
  OldVersion : String := ""
  NewVersion : String := ""
  Success : Bool := false
  Error : Option ApplyError := none
  LogPath : String := ""
  deriving Repr, DecidableEq

/-- The injected environment of one `Apply` call: the ledger, the
file-system and external-command outcomes, the confirmation function's
answer and the privilege-tool lookup. -/
structure ApplyEnv where
  pendingGet : String → Option PendingUpdate
  copyFS : Option String
  manifestExec : Option String
  setStatus : PendingStatus → String → Option String
  confirm : Bool
  privTool : Option String
  compileExec : Option String
  compileLogPath : String

/-- The observable outcome of `Apply`: the returned result, the ordered
trace of `SetStatus` calls, and whether the privileged compile command was
invoked. -/
structure ApplyOutcome where
  result : ApplyResult
  statusWrites : List (PendingStatus × String)
  compileInvoked : Bool
  deriving Repr, DecidableEq

/-- `copyEbuild` (applier source): package-name format check, then the
stat/open/create/copy/sync sequence whose aggregated outcome is
`env.copyFS`. -/
def copyEbuild (env : ApplyEnv) (pkg : String) : Option String :=
  match splitOnCharGo '/' pkg with
  | [_, _] => env.copyFS
  | _ => some ("invalid package name format: " ++ pkg)

/-- `runManifest` (applier source): package-name format check, then the
external `ebuild … manifest` command whose outcome is `env.manifestExec`. -/
def runManifestGo (env : ApplyEnv) (pkg : String) : Option String :=
  match splitOnCharGo '/' pkg with
  | [_, _] => env.manifestExec
  | _ => some ("invalid package name format: " ++ pkg)

/-- `runCompile` (applier source): confirmation prompt, privilege-tool
detection, package-name check, then the privileged clean-and-compile
command.  Returns the log path, the error, and whether the compile command
was actually invoked. -/
def runCompile (env : ApplyEnv) (pkg : String) : String × Option ApplyError × Bool :=
  if !env.confirm then ("", some .userDeclined, false)
  else
    match env.privTool with
    | none => ("", some .noPrivilegeEscalation, false)
    | some _ =>
      match splitOnCharGo '/' pkg with
      | [_, _] =>
        match env.compileExec with
        | none => ("", none, true)
        | some e => (env.compileLogPath, some (.compileFailed e), true)
      | _ => ("", some (.invalidPackageName pkg), false)

/-- The `if err := a.pending.SetStatus(...)` error-augmentation pattern of
`Apply` (applier source): a failing status write is folded into the
original error. -/
def augmentStatus (base : ApplyError) (setRes : Option String) : ApplyError :=
  match setRes with
  | none => base
  | some m => .alsoStatusUpdateFailed base m

/-- `Apply` (applier source): look up the pending entry, copy the ebuild,
regenerate the manifest, mark `validated`, and optionally run the compile
probe; every failing step after the lookup marks the entry `failed`. -/
def Apply (env : ApplyEnv) (pkg : String) (compile : Bool) : ApplyOutcome :=
  match env.pendingGet pkg with
  | none =>
    { result := { Package := pkg, Error := some .packageNotInPending },
      statusWrites := [], compileInvoked := false }
  | some update =>
    let oldV := update.CurrentVersion
    let newV := update.NewVersion
    match copyEbuild env pkg with
    | some copyErr =>
      let e : ApplyError := .copyFailed copyErr
      let e := augmentStatus e (env.setStatus .failed e.message)
      { result := { Package := pkg, OldVersion := oldV, NewVersion := newV, Error := some e },
        statusWrites := [(.failed, (ApplyError.copyFailed copyErr).message)],
        compileInvoked := false }
    | none =>
      match runManifestGo env pkg with
      | some mErr =>
        let e : ApplyError := .manifestFailed mErr
        let e := augmentStatus e (env.setStatus .failed e.message)
        { result := { Package := pkg, OldVersion := oldV, NewVersion := newV, Error := some e },
          statusWrites := [(.failed, (ApplyError.manifestFailed mErr).message)],
          compileInvoked := false }
      | none =>
        match env.setStatus .validated "" with
        | some sErr =>
          { result := { Package := pkg, OldVersion := oldV, NewVersion := newV,
                        Error := some (.statusUpdateFailed sErr) },
            statusWrites := [(.validated, "")], compileInvoked := false }
        | none =>
          if compile then
            match runCompile env pkg with
            | (logPath, some cErr, invoked) =>
              let e := augmentStatus cErr (env.setStatus .failed cErr.message)
              { result := { Package := pkg, OldVersion := oldV, NewVersion := newV,
                            Error := some e, LogPath := logPath },
                statusWrites := [(.validated, ""), (.failed, cErr.message)],
                compileInvoked := invoked }
            | (_, none, invoked) =>
              { result := { Package := pkg, OldVersion := oldV, NewVersion := newV,
                            Success := true },
                statusWrites := [(.validated, "")], compileInvoked := invoked }
          else
            { result := { Package := pkg, OldVersion := oldV, NewVersion := newV,
                          Success := true },
              statusWrites := [(.validated, "")], compileInvoked := false }

/-! ## Claim C1: apply with user decline -/

/-- A concrete environment in which every step of `Apply` succeeds but the
confirmation function declines the compile probe. -/
def applyEnvDecline : ApplyEnv :=
  { pendingGet := fun p =>
      if p = "app-misc/hello" then
        some { Package := "app-misc/hello", CurrentVersion := "1.0.0",
               NewVersion := "2.0.0", Status := .pending }
      else none,
    copyFS := none, manifestExec := none, setStatus := fun _ _ => none,
    confirm := false, privTool := some "doas", compileExec := none,
    compileLogPath := "" }

/-- C1 (counterexample): with every earlier step succeeding and the
confirmation declined, `Apply(pkg, true)` does return `UserDeclined` and
does not invoke the compile command, but — contrary to the claim — it then
calls `SetStatus(pkg, failed, "user declined compile test")`: the ledger
entry does not stay at `validated`. -/
theorem C1_counterexample :
    (Apply applyEnvDecline "app-misc/hello" true).result.Error = some .userDeclined ∧
    (Apply applyEnvDecline "app-misc/hello" true).compileInvoked = false ∧
    (Apply applyEnvDecline "app-misc/hello" true).statusWrites =
      [(.validated, ""), (.failed, "user declined compile test")] ∧
    (Apply applyEnvDecline "app-misc/hello" true).statusWrites ≠
      [(.validated, "")] := by
  refine ⟨?_, ?_, ?_, ?_⟩ <;> decide

/-- C1 (amended): if `Apply(pkg, true)` reaches the build-probe step (lookup,
copy, manifest and the `validated` status write all succeed) and the
injected confirmation function declines, then `Apply` returns the
`UserDeclined` error without invoking the privileged compile command — but
the ledger entry is further transitioned to `failed` (status writes:
`validated` then `failed` with the decline message). -/
theorem C1_apply_user_decline (env : ApplyEnv) (pkg : String) (u : PendingUpdate)
    (hget : env.pendingGet pkg = some u)
    (hcopy : copyEbuild env pkg = none)
    (hman : runManifestGo env pkg = none)
    (hval : env.setStatus .validated "" = none)
    (hconf : env.confirm = false)
    (hfail : env.setStatus .failed "user declined compile test" = none) :
    Apply env pkg true =
      { result := { Package := pkg, OldVersion := u.CurrentVersion,
                    NewVersion := u.NewVersion, Success := false,
                    Error := some .userDeclined, LogPath := "" },
        statusWrites := [(.validated, ""), (.failed, "user declined compile test")],
        compileInvoked := false } := by
  have hrc : runCompile env pkg = ("", some .userDeclined, false) := by
    unfold runCompile
    rw [hconf]
    rfl
  unfold Apply
  rw [hget, hcopy, hman, hval]
  simp only [if_pos rfl, hrc]
  have hmsg : (ApplyError.userDeclined).message = "user declined compile test" := rfl
  simp [augmentStatus, hmsg, hfail]

/-- C1 (witness): the amended theorem applied to the concrete declining
environment. -/
theorem C1_witness :
    Apply applyEnvDecline "app-misc/hello" true =
      { result := { Package := "app-misc/hello", OldVersion := "1.0.0",
                    NewVersion := "2.0.0", Success := false,
                    Error := some .userDeclined, LogPath := "" },
        statusWrites := [(.validated, ""), (.failed, "user declined compile test")],
        compileInvoked := false } :=
  C1_apply_user_decline applyEnvDecline "app-misc/hello"
    { Package := "app-misc/hello", CurrentVersion := "1.0.0",
      NewVersion := "2.0.0", Status := .pending }
    (by decide) (by decide) (by decide) (by decide) (by decide) (by decide)

/-! ## Claim C5: validation valid iff versions match -/

/-- C5: `ValidateSchema` marks the result valid exactly when extraction
succeeded and the extracted and recorded versions agree after normalization
(trim plus version-prefix stripping); and for any two distinct normalized
versions the result reports no match, no validity and a version-mismatch
error value — returned as data. -/
theorem C5_validate_schema_valid_iff (parseRes : Except String String)
    (recorded : String) :
    ((ValidateSchema parseRes recorded).Valid = true ↔
      ∃ v, parseRes = .ok v ∧
        specNormalForm (normalizeVersion v) = specNormalForm recorded) ∧
    (∀ v1 v2 : String, normalizeVersion v1 = v1 → stripVersionPrefixGo v1 = v1 →
      normalizeVersion v2 = v2 → stripVersionPrefixGo v2 = v2 → v1 ≠ v2 →
      (ValidateSchema (.ok v1) v2).Valid = false ∧
      (ValidateSchema (.ok v1) v2).VersionsMatch = false ∧
      (ValidateSchema (.ok v1) v2).Error = some (.versionMismatch v1 v2)) := by
  constructor
  · cases parseRes with
    | error e => simp [ValidateSchema, TestExtraction]
    | ok v =>
      simp only [ValidateSchema, TestExtraction]
      rw [compareVersionStrings_eq_specNormalForm]
      by_cases h : specNormalForm (normalizeVersion v) = specNormalForm recorded
      · simp [h]
      · simp [h]
  · intro v1 v2 h1 h2 h3 h4 hne
    have hcmp : compareVersionStrings (normalizeVersion v1) v2 = false := by
      rw [compareVersionStrings_eq_specNormalForm]
      simp only [specNormalForm, h1, h3, h2, h4]
      simp [hne]
    rw [h1] at hcmp
    refine ⟨?_, ?_, ?_⟩ <;> simp [ValidateSchema, TestExtraction, h1, hcmp]

/-- C5 (witness): concrete instantiation with distinct normalized versions
`1.2` and `1.3`. -/
theorem C5_witness :
    (ValidateSchema (.ok "1.2") "1.3").Valid = false ∧
    (ValidateSchema (.ok "1.2") "1.3").VersionsMatch = false ∧
    (ValidateSchema (.ok "1.2") "1.3").Error = some (.versionMismatch "1.2" "1.3") :=
  (C5_validate_schema_valid_iff (.ok "1.2") "1.3").2 "1.2" "1.3"
    (by decide) (by decide) (by decide) (by decide) (by decide)

/-! ## Claim C7: fallback suggestions -/

/-- C7: for each of the four strategies `p`, `SuggestFallbacks p` is exactly
the three other strategies, in strictly ascending reliability order, never
containing `p`; the reliability ranking is fixed (json=1, html=2, regex=3,
llm=4) and every unrecognized strategy ranks strictly below the AI-assisted
one. -/
theorem C7_suggest_fallbacks (p : String)
    (hp : p = ParserTypeJSON ∨ p = ParserTypeHTML ∨ p = ParserTypeRegex ∨
      p = ParserTypeLLM) :
    ((SuggestFallbacks p).length = 3 ∧
     (SuggestFallbacks p).map (fun f => f.ParserType) =
       [ParserTypeJSON, ParserTypeHTML, ParserTypeRegex, ParserTypeLLM].filter
         (fun t => t ≠ p) ∧
     (SuggestFallbacks p).Pairwise (fun a b => a.Reliability < b.Reliability) ∧
     (∀ f ∈ SuggestFallbacks p, f.ParserType ≠ p)) ∧
    (GetParserReliability ParserTypeJSON = 1 ∧ GetParserReliability ParserTypeHTML = 2 ∧
     GetParserReliability ParserTypeRegex = 3 ∧ GetParserReliability ParserTypeLLM = 4) ∧
    (∀ q : String, q ≠ ParserTypeJSON → q ≠ ParserTypeHTML → q ≠ ParserTypeRegex →
      q ≠ ParserTypeLLM → GetParserReliability q = ReliabilityLLM + 1 ∧
        ReliabilityLLM < GetParserReliability q) := by
  refine ⟨?_, by decide, ?_⟩
  · rcases hp with rfl | rfl | rfl | rfl <;> exact ⟨by decide, by decide, by decide, by decide⟩
  · intro q hq1 hq2 hq3 hq4
    have : GetParserReliability q = ReliabilityLLM + 1 := by
      unfold GetParserReliability
      rw [if_neg hq1, if_neg hq2, if_neg hq3, if_neg hq4]
    exact ⟨this, by rw [this]; decide⟩

/-- C7 (witness): the theorem at primary strategy `json` and the
unrecognized strategy `custom`. -/
theorem C7_witness :
    (SuggestFallbacks ParserTypeJSON).length = 3 ∧
    GetParserReliability "custom" = ReliabilityLLM + 1 :=
  ⟨(C7_suggest_fallbacks ParserTypeJSON (Or.inl rfl)).1.1,
   ((C7_suggest_fallbacks ParserTypeJSON (Or.inl rfl)).2.2 "custom"
     (by decide) (by decide) (by decide) (by decide)).1⟩

/-! ## Claim C8: analysis cache TTL -/

/-- C8: a cache entry is a hit exactly while its age is strictly below the
24-hour TTL; an entry at exactly the TTL (or older) is a miss. -/
theorem C8_cache_ttl_exclusive (entries : List (String × AnalysisCacheEntry))
    (now : Int) (pkg : String) (e : AnalysisCacheEntry)
    (hlook : lookupEntry entries pkg = some e) :
    ((AnalysisCache.Get ⟨entries, now⟩ pkg = some e.Schema ↔
        now - e.Timestamp < DefaultAnalysisCacheTTL) ∧
     (AnalysisCache.Get ⟨entries, now⟩ pkg = none ↔
        DefaultAnalysisCacheTTL ≤ now - e.Timestamp)) := by
  unfold AnalysisCache.Get
  rw [hlook]
  dsimp only
  constructor
  · constructor
    · intro hc
      by_contra hge
      rw [if_neg (by omega)] at hc
      exact Option.noConfusion hc
    · intro hlt
      rw [if_pos hlt]
  · constructor
    · intro hc
      by_contra hlt
      rw [if_pos (by omega)] at hc
      exact Option.noConfusion hc
    · intro hge
      rw [if_neg (by omega)]

/-- A concrete cached schema for the C8 witness. -/
def requestsSchema : PackageConfig :=
  { URL := "https://pypi.org/pypi/requests/json", Parser := "json", Path := "version" }

/-- A concrete cache entry stored at timestamp 0. -/
def requestsEntry : AnalysisCacheEntry :=
  { Schema := requestsSchema, Timestamp := 0,
    URL := "https://pypi.org/pypi/requests/json" }

/-- C8 (witness): an entry aged one second less than 24 hours is a hit; at
exactly 24 hours it is a miss. -/
theorem C8_witness :
    (AnalysisCache.Get ⟨[("dev-python/requests", requestsEntry)], 86399⟩
      "dev-python/requests" = some requestsSchema) ∧
    (AnalysisCache.Get ⟨[("dev-python/requests", requestsEntry)], 86400⟩
      "dev-python/requests" = none) :=
  ⟨((C8_cache_ttl_exclusive _ 86399 "dev-python/requests" requestsEntry
      (by decide)).1).2 (by decide),
   ((C8_cache_ttl_exclusive _ 86400 "dev-python/requests" requestsEntry
      (by decide)).2).2 (by decide)⟩

/-! ## Claim C2: discovery output order -/

theorem priority_providedSources (url : String) :
    ∀ s ∈ providedSources url, s.Priority = PriorityProvided := by
  intro s hs
  unfold providedSources at hs
  split at hs
  · rcases List.mem_singleton.1 hs with rfl
    rfl
  · exact absurd hs (List.not_mem_nil s)

theorem priority_discoverGitHub (meta : EbuildMetadata) :
    ∀ s ∈ (discoverGitHubSource meta).toList, s.Priority = PriorityGitHub := by
  intro s hs
  rw [Option.mem_toList, Option.mem_def] at hs
  unfold discoverGitHubSource at hs
  rcases Option.map_eq_some'.1 hs with ⟨info, _, rfl⟩
  rfl

theorem priority_discoverPyPI (meta : EbuildMetadata) :
    ∀ s ∈ (discoverPyPISource meta).toList, s.Priority = PriorityPyPI := by
  intro s hs
  rw [Option.mem_toList, Option.mem_def] at hs
  unfold discoverPyPISource at hs
  rcases Option.map_eq_some'.1 hs with ⟨n, _, rfl⟩
  rfl

theorem priority_discoverNPM (meta : EbuildMetadata) :
    ∀ s ∈ (discoverNPMSource meta).toList, s.Priority = PriorityNPM := by
  intro s hs
  rw [Option.mem_toList, Option.mem_def] at hs
  unfold discoverNPMSource at hs
  rcases Option.map_eq_some'.1 hs with ⟨n, _, rfl⟩
  rfl

theorem priority_discoverCrates (meta : EbuildMetadata) :
    ∀ s ∈ (discoverCratesSource meta).toList, s.Priority = PriorityCrates := by
  intro s hs
  rw [Option.mem_toList, Option.mem_def] at hs
  unfold discoverCratesSource at hs
  rcases Option.map_eq_some'.1 hs with ⟨n, _, rfl⟩
  rfl

theorem priority_homepageSources (meta : EbuildMetadata) (srcs : List DataSource) :
    ∀ s ∈ homepageSources meta srcs, s.Priority = PriorityHomepage := by
  intro s hs
  unfold homepageSources at hs
  split at hs
  · rcases List.mem_singleton.1 hs with rfl
    rfl
  · exact absurd hs (List.not_mem_nil s)

theorem pairwise_toList {R : DataSource → DataSource → Prop} (o : Option DataSource) :
    o.toList.Pairwise R := by
  cases o <;> simp

theorem pairwise_providedSources {R : DataSource → DataSource → Prop} (url : String) :
    (providedSources url).Pairwise R := by
  unfold providedSources
  split <;> simp

theorem pairwise_homepageSources {R : DataSource → DataSource → Prop}
    (meta : EbuildMetadata) (srcs : List DataSource) :
    (homepageSources meta srcs).Pairwise R := by
  unfold homepageSources
  split <;> simp

theorem pairwise_priority_append (l1 l2 : List DataSource) (b : Int)
    (hs1 : l1.Pairwise (fun a c => a.Priority ≤ c.Priority))
    (hs2 : l2.Pairwise (fun a c => a.Priority ≤ c.Priority))
    (hub : ∀ s ∈ l1, s.Priority ≤ b) (hlb : ∀ s ∈ l2, b ≤ s.Priority) :
    (l1 ++ l2).Pairwise (fun a c => a.Priority ≤ c.Priority) := by
  refine List.pairwise_append.2 ⟨hs1, hs2, ?_⟩
  intro a ha c hc
  have := hub a ha
  have := hlb c hc
  omega

/-- The list built by `DiscoverDataSources` is already sorted ascending by
priority before the sort runs: the append order of the source is the
priority order `0, 10, 20, 20, 20, 100`. -/
theorem discoveryOrderList_sorted (meta : EbuildMetadata) (url : String) :
    (discoveryOrderList meta url).Pairwise (fun a b => a.Priority ≤ b.Priority) := by
  have hp1 := priority_providedSources url
  have hp2 := priority_discoverGitHub meta
  have hp3 := priority_discoverPyPI meta
  have hp4 := priority_discoverNPM meta
  have hp5 := priority_discoverCrates meta
  have h45 : ((discoverNPMSource meta).toList ++
      (discoverCratesSource meta).toList).Pairwise
        (fun a c => a.Priority ≤ c.Priority) := by
    refine pairwise_priority_append _ _ PriorityCrates (pairwise_toList _)
      (pairwise_toList _) ?_ ?_
    · intro s hs
      rw [hp4 s hs]
      decide
    · intro s hs
      rw [hp5 s hs]
  have h345 : ((discoverPyPISource meta).toList ++
      ((discoverNPMSource meta).toList ++ (discoverCratesSource meta).toList)).Pairwise
        (fun a c => a.Priority ≤ c.Priority) := by
    refine pairwise_priority_append _ _ PriorityPyPI (pairwise_toList _) h45 ?_ ?_
    · intro s hs
      rw [hp3 s hs]
    · intro s hs
      rcases List.mem_append.1 hs with h | h
      · rw [hp4 s h]
        decide
      · rw [hp5 s h]
        decide
  have h2345 : ((discoverGitHubSource meta).toList ++
      ((discoverPyPISource meta).toList ++
        ((discoverNPMSource meta).toList ++
          (discoverCratesSource meta).toList))).Pairwise
        (fun a c => a.Priority ≤ c.Priority) := by
    refine pairwise_priority_append _ _ PriorityPyPI (pairwise_toList _) h345 ?_ ?_
    · intro s hs
      rw [hp2 s hs]
      decide
    · intro s hs
      rcases List.mem_append.1 hs with h | h
      · rw [hp3 s h]
      · rcases List.mem_append.1 h with h' | h'
        · rw [hp4 s h']
          decide
        · rw [hp5 s h']
          decide
  have hsources : (providedSources url ++
      ((discoverGitHubSource meta).toList ++
        ((discoverPyPISource meta).toList ++
          ((discoverNPMSource meta).toList ++
            (discoverCratesSource meta).toList)))).Pairwise
        (fun a c => a.Priority ≤ c.Priority) := by
    refine pairwise_priority_append _ _ PriorityGitHub (pairwise_providedSources url)
      h2345 ?_ ?_
    · intro s hs
      rw [hp1 s hs]
      decide
    · intro s hs
      rcases List.mem_append.1 hs with h | h
      · rw [hp2 s h]
      · rcases List.mem_append.1 h with h' | h'
        · rw [hp3 s h']
          decide
        · rcases List.mem_append.1 h' with h'' | h''
          · rw [hp4 s h'']
            decide
          · rw [hp5 s h'']
            decide
  unfold discoveryOrderList
  refine pairwise_priority_append _ _ PriorityHomepage ?_
    (pairwise_homepageSources meta _) ?_ ?_
  · simpa using hsources
  · intro s hs
    simp only [List.append_assoc, List.mem_append] at hs
    rcases hs with h | h | h | h | h
    · rw [hp1 s h]
      decide
    · rw [hp2 s h]
      decide
    · rw [hp3 s h]
      decide
    · rw [hp4 s h]
      decide
    · rw [hp5 s h]
      decide
  · intro s hs
    rw [priority_homepageSources meta _ s hs]

/-- C2: the discovery output is sorted ascending by priority, an explicit
override URL is always the first element, and it is exactly the pre-sort
append-order list (so equal-priority sources keep discovery order: github,
then pypi, then npm, then crates); the priority-20 block is precisely pypi
then npm then crates. -/
theorem C2_discovery_sorted (meta : EbuildMetadata) (url : String) :
    (DiscoverDataSources meta url).Pairwise (fun a b => a.Priority ≤ b.Priority) ∧
    DiscoverDataSources meta url = discoveryOrderList meta url ∧
    (url ≠ "" → (DiscoverDataSources meta url).head? =
      some { URL := url, SrcType := "provided", Priority := PriorityProvided,
             ContentType := detectContentType url }) ∧
    (DiscoverDataSources meta url).filter (fun s => s.Priority = PriorityPyPI) =
      (discoverPyPISource meta).toList ++ (discoverNPMSource meta).toList ++
        (discoverCratesSource meta).toList := by
  have hsorted := discoveryOrderList_sorted meta url
  have heq : DiscoverDataSources meta url = discoveryOrderList meta url :=
    insertionSortGo_sorted_id _ _ hsorted
  refine ⟨by rw [heq]; exact hsorted, heq, ?_, ?_⟩
  · intro hurl
    rw [heq]
    unfold discoveryOrderList providedSources
    rw [if_pos hurl]
    simp
  · rw [heq]
    unfold discoveryOrderList
    simp only [List.filter_append]
    have hfp : (providedSources url).filter (fun s => s.Priority = PriorityPyPI)
        = [] := by
      unfold providedSources
      split
      · simp [PriorityProvided, PriorityPyPI]
      · rfl
    have hfg : ((discoverGitHubSource meta).toList).filter
        (fun s => s.Priority = PriorityPyPI) = [] := by
      cases ho : discoverGitHubSource meta with
      | none => rfl
      | some s =>
        have hp : s.Priority = PriorityGitHub :=
          priority_discoverGitHub meta s (by simp [ho])
        simp [List.filter, hp, PriorityGitHub, PriorityPyPI]
    have hfh : (homepageSources meta
          (providedSources url ++ (discoverGitHubSource meta).toList ++
            (discoverPyPISource meta).toList ++ (discoverNPMSource meta).toList ++
            (discoverCratesSource meta).toList)).filter
        (fun s => s.Priority = PriorityPyPI) = [] := by
      unfold homepageSources
      split
      · simp [PriorityHomepage, PriorityPyPI]
      · rfl
    have hkeep : ∀ (o : Option DataSource),
        (∀ s ∈ o.toList, s.Priority = PriorityPyPI) →
        (o.toList).filter (fun s => s.Priority = PriorityPyPI) = o.toList := by
      intro o h
      cases o with
      | none => rfl
      | some s =>
        have := h s (by simp)
        simp [List.filter, this]
    rw [hfp, hfg, hfh,
      hkeep _ (priority_discoverPyPI meta),
      hkeep _ (fun s hs => priority_discoverNPM meta s hs),
      hkeep _ (fun s hs => priority_discoverCrates meta s hs)]
    simp

/-- C2 (witness): the theorem at the requests metadata with an explicit
override URL. -/
theorem C2_witness :
    (DiscoverDataSources
        { Package := "dev-python/requests",
          Homepage := "https://pypi.org/project/requests" }
        "https://example.com/versions.json").head? =
      some { URL := "https://example.com/versions.json", SrcType := "provided",
             Priority := PriorityProvided,
             ContentType := detectContentType "https://example.com/versions.json" } :=
  (C2_discovery_sorted
    { Package := "dev-python/requests",
      Homepage := "https://pypi.org/project/requests" }
    "https://example.com/versions.json").2.2.1 (by decide)

/-! ## Claim C3: the dev-python/requests scenario -/

/-- C3: for package `dev-python/requests` with homepage
`https://pypi.org/project/requests` and no override URL, discovery returns
exactly one source — the pypi-typed `https://pypi.org/pypi/requests/json`
endpoint — and no homepage-typed source. -/
theorem C3_requests_pypi_scenario :
    DiscoverDataSources
        { Package := "dev-python/requests",
          Homepage := "https://pypi.org/project/requests" } "" =
      [{ URL := "https://pypi.org/pypi/requests/json", SrcType := "pypi",
         Priority := PriorityPyPI, ContentType := ContentTypeJSON }] ∧
    ∀ s ∈ DiscoverDataSources
        { Package := "dev-python/requests",
          Homepage := "https://pypi.org/project/requests" } "",
      s.SrcType ≠ "homepage" := by
  constructor
  · rfl
  · decide

/-! ## Claim C4: bounded version history -/

/-- C4 (counterexample): with a wildcard path over an empty array there are
zero extractable items (which is at most 10), yet `ExtractVersions` returns
a path-not-found error rather than the empty list of items — the claim's
"exactly those items" result does not exist for zero items. -/
theorem C4_counterexample :
    jsonSpecItems "[*]" (JSONValue.arr []) = [] ∧
    JSONExtractVersions "[*]" (some (JSONValue.arr [])) =
      .error .jsonPathNotFound ∧
    ∀ l : List String,
      JSONExtractVersions "[*]" (some (JSONValue.arr [])) ≠ .ok l := by
  refine ⟨rfl, rfl, ?_⟩
  intro l h
  rw [show JSONExtractVersions "[*]" (some (JSONValue.arr [])) =
    .error .jsonPathNotFound from rfl] at h
  exact Except.noConfusion h

/-- C4 (amended): every successful history extraction (JSON path, markup
CSS selector or XPath) returns at most 10 entries; and whenever the content
holds between 1 and 10 extractable string items, the result is exactly
those items in source order (with zero extractable items extraction fails
with an error instead of returning an empty list). -/
theorem C4_history_limit :
    (∀ (path : String) (parsed : Option JSONValue) (l : List String),
      JSONExtractVersions path parsed = .ok l → l.length ≤ MaxVersionHistoryLimit) ∧
    (∀ (sel regex : String) (fr : Option (List String))
        (f : String → Option String) (l : List String),
      HTMLExtractVersions sel regex fr f = .ok l → l.length ≤ MaxVersionHistoryLimit) ∧
    (∀ (xp regex : String) (qr : Option (Except Unit (List String)))
        (f : String → Option String) (l : List String),
      XPathExtractVersions xp regex qr f = .ok l → l.length ≤ MaxVersionHistoryLimit) ∧
    (∀ (path : String) (data : JSONValue),
      path ≠ "" → 1 ≤ (jsonSpecItems path data).length →
      (jsonSpecItems path data).length ≤ MaxVersionHistoryLimit →
      JSONExtractVersions path (some data) = .ok (jsonSpecItems path data)) ∧
    (∀ (sel regex : String) (texts : List String) (f : String → Option String),
      sel ≠ "" →
      1 ≤ (texts.filterMap (markupItemValue regex f)).length →
      (texts.filterMap (markupItemValue regex f)).length ≤ MaxVersionHistoryLimit →
      HTMLExtractVersions sel regex (some texts) f =
        .ok (texts.filterMap (markupItemValue regex f))) ∧
    (∀ (xp regex : String) (texts : List String) (f : String → Option String),
      xp ≠ "" →
      1 ≤ (texts.filterMap (markupItemValue regex f)).length →
      (texts.filterMap (markupItemValue regex f)).length ≤ MaxVersionHistoryLimit →
      XPathExtractVersions xp regex (some (.ok texts)) f =
        .ok (texts.filterMap (markupItemValue regex f))) := by
  refine ⟨?_, ?_, ?_, ?_, ?_, ?_⟩
  · intro path parsed l h
    unfold JSONExtractVersions at h
    split at h
    · exact absurd h (by simp)
    · split at h
      · simp at h
      · split at h
        · simp at h
        · simp only [Except.ok.injEq] at h
          rw [← h]
          simpa using List.length_take_le MaxVersionHistoryLimit _
  · intro sel regex fr f l h
    unfold HTMLExtractVersions at h
    split at h
    · exact absurd h (by simp)
    · split at h
      · simp at h
      · split at h
        · simp at h
        · dsimp only at h
          split at h
          · simp at h
          · simp only [Except.ok.injEq] at h
            rw [← h]
            exact collectSkipWhenFull_length_le _ _ [] (by decide)
  · intro xp regex qr f l h
    unfold XPathExtractVersions at h
    split at h
    · exact absurd h (by simp)
    · split at h
      · simp at h
      · simp at h
      · split at h
        · simp at h
        · dsimp only at h
          split at h
          · simp at h
          · simp only [Except.ok.injEq] at h
            rw [← h]
            exact collectBreakWhenFull_length_le _ _ [] (by decide)
  · intro path data hpath h1 h10
    unfold JSONExtractVersions
    rw [if_neg hpath]
    dsimp only
    unfold jsonSpecItems at h1 h10 ⊢
    unfold extractVersionsFromPath
    by_cases hw : hasPrefixGo path "[*]" = true
    · simp only [if_pos hw] at h1 h10 ⊢
      cases data with
      | arr items =>
        dsimp only at h1 h10 ⊢
        have hexact := collectBreakAfter_exact
          (wildcardItemValue (trimPrefixGo (trimPrefixGo path "[*]") ".")) items []
          (by simpa using h10)
        simp only [List.nil_append] at hexact
        rw [hexact, if_neg (by omega)]
        dsimp only
        congr 1
        exact List.take_of_length_le h10
      | null => simp at h1
      | bool b => simp at h1
      | num q => simp at h1
      | str s => simp at h1
      | obj fields => simp at h1
    · simp only [if_neg hw] at h1 h10 ⊢
      cases hnav : navigateJSONPath data path with
      | error e =>
        rw [hnav] at h1
        simp at h1
      | ok result =>
        rw [hnav] at h1 h10
        cases result with
        | arr items =>
          dsimp only at h1 h10 ⊢
          have hexact := collectBreakAfter_exact arrayItemValue items []
            (by simpa using h10)
          simp only [List.nil_append] at hexact
          rw [hexact, if_neg (by omega)]
          dsimp only
          congr 1
          exact List.take_of_length_le h10
        | null => simp at h1
        | bool b => simp at h1
        | num q => simp at h1
        | str s => simp at h1
        | obj fields => simp at h1
  · intro sel regex texts f hsel h1 h10
    unfold HTMLExtractVersions
    rw [if_neg hsel]
    have htexts : ¬ texts.length = 0 := by
      intro hz
      rw [List.length_eq_zero.1 hz] at h1
      simp at h1
    have hexact := collectSkipWhenFull_exact (markupItemValue regex f) texts []
      (by simpa using h10)
    simp only [List.nil_append] at hexact
    show (if texts.length = 0 then Except.error ExtractionErr.noElementFound
        else
          if (collectSkipWhenFull (markupItemValue regex f) texts []).length = 0 then
            Except.error ExtractionErr.noVersionFound
          else Except.ok (collectSkipWhenFull (markupItemValue regex f) texts [])) =
      Except.ok (texts.filterMap (markupItemValue regex f))
    rw [hexact, if_neg htexts, if_neg (by omega)]
  · intro xp regex texts f hxp h1 h10
    unfold XPathExtractVersions
    rw [if_neg hxp]
    have htexts : ¬ texts.length = 0 := by
      intro hz
      rw [List.length_eq_zero.1 hz] at h1
      simp at h1
    have hexact := collectBreakWhenFull_exact (markupItemValue regex f) texts []
      (by simpa using h10)
    simp only [List.nil_append] at hexact
    show (if texts.length = 0 then Except.error ExtractionErr.noElementFound
        else
          if (collectBreakWhenFull (markupItemValue regex f) texts []).length = 0 then
            Except.error ExtractionErr.noVersionFound
          else Except.ok (collectBreakWhenFull (markupItemValue regex f) texts [])) =
      Except.ok (texts.filterMap (markupItemValue regex f))
    rw [hexact, if_neg htexts, if_neg (by omega)]

/-- C4 (witness): exact extraction at concrete one-item inputs for all
three extractor kinds. -/
theorem C4_witness :
    JSONExtractVersions "[*]" (some (JSONValue.arr [JSONValue.str "1.0"])) =
      .ok (jsonSpecItems "[*]" (JSONValue.arr [JSONValue.str "1.0"])) ∧
    HTMLExtractVersions "div.version" "" (some ["  1.2  "]) (fun _ => none) =
      .ok (["  1.2  "].filterMap (markupItemValue "" (fun _ => none))) ∧
    XPathExtractVersions "//span" "" (some (.ok ["3.4"])) (fun _ => none) =
      .ok (["3.4"].filterMap (markupItemValue "" (fun _ => none))) :=
  ⟨C4_history_limit.2.2.2.1 "[*]" (JSONValue.arr [JSONValue.str "1.0"])
    (by decide) (by decide) (by decide),
   C4_history_limit.2.2.2.2.1 "div.version" "" ["  1.2  "] (fun _ => none)
    (by decide) (by decide) (by decide),
   C4_history_limit.2.2.2.2.2 "//span" "" ["3.4"] (fun _ => none)
    (by decide) (by decide) (by decide)⟩

/-! ## Claim C9: rate limiter burst of one -/

/-- C9: on a freshly constructed rate limiter the first `AllowLLM` (and the
first `AllowHTTP` for any domain) succeeds, and a second call on the same
bucket before the bucket's refill interval has elapsed (12 s for the LLM
bucket, 6 s per host for HTTP buckets; burst capacity 1) fails. -/
theorem C9_rate_limiter_burst (t0 t1 t2 : ℚ) (domain : String)
    (h01 : t0 ≤ t1) (h12 : t1 ≤ t2) :
    ((AllowLLM (NewRateLimiter t0) t1).1 = true) ∧
    (t2 < t1 + 12 → (AllowLLM (AllowLLM (NewRateLimiter t0) t1).2 t2).1 = false) ∧
    ((AllowHTTP (NewRateLimiter t0) domain t1).1 = true) ∧
    (t2 < t1 + 6 →
      (AllowHTTP (AllowHTTP (NewRateLimiter t0) domain t1).2 domain t2).1 = false) := by
  have hmin12 : min (1 : ℚ) (1 + (t1 - t0) * (1 / 12)) = 1 := by
    apply min_eq_left
    have : (0 : ℚ) ≤ (t1 - t0) * (1 / 12) := by
      apply mul_nonneg
      · linarith
      · norm_num
    linarith
  have hfirstLLM : AllowLLM (NewRateLimiter t0) t1 =
      (true, ⟨⟨1 / 12, 1, 0, t1⟩, []⟩) := by
    unfold AllowLLM NewRateLimiter newBucket bucketAllow bucketAdvance
    dsimp only
    rw [hmin12]
    norm_num
  have hsecondLLM : t2 < t1 + 12 →
      (AllowLLM (⟨⟨1 / 12, 1, 0, t1⟩, []⟩ : RateLimiterS) t2).1 = false := by
    intro hlt
    have htok : ¬ (1 : ℚ) ≤ min 1 ((0 : ℚ) + (t2 - t1) * (1 / 12)) := by
      have hr : (0 : ℚ) + (t2 - t1) * (1 / 12) < 1 := by
        have : (t2 - t1) * (1 / 12) < 1 := by linarith
        linarith
      have := min_le_right (1 : ℚ) ((0 : ℚ) + (t2 - t1) * (1 / 12))
      linarith
    unfold AllowLLM bucketAllow bucketAdvance
    dsimp only
    rw [if_neg htok]
  have hmin6 : min (1 : ℚ) (1 + (t1 - t1) * (1 / 6)) = 1 := by
    apply min_eq_left
    norm_num
  have hfind0 : (([] : List (String × GoRateLimiter)).find? (fun e => e.1 = domain))
      = none := rfl
  have hfirstHTTP : AllowHTTP (NewRateLimiter t0) domain t1 =
      (true, ⟨⟨1 / 12, 1, 1, t0⟩, [(domain, ⟨1 / 6, 1, 0, t1⟩)]⟩) := by
    unfold AllowHTTP NewRateLimiter getHTTPLimiter setHTTPLimiter newBucket
      bucketAllow bucketAdvance
    dsimp only
    rw [hfind0]
    dsimp only
    rw [hmin6]
    norm_num
  have hsecondHTTP : t2 < t1 + 6 →
      (AllowHTTP (⟨⟨1 / 12, 1, 1, t0⟩, [(domain, ⟨1 / 6, 1, 0, t1⟩)]⟩ : RateLimiterS)
        domain t2).1 = false := by
    intro hlt
    have hfind1 : (([(domain, (⟨1 / 6, 1, 0, t1⟩ : GoRateLimiter))]).find?
        (fun e => e.1 = domain)) = some (domain, ⟨1 / 6, 1, 0, t1⟩) := by
      simp [List.find?]
    have htok : ¬ (1 : ℚ) ≤ min 1 ((0 : ℚ) + (t2 - t1) * (1 / 6)) := by
      have hr : (0 : ℚ) + (t2 - t1) * (1 / 6) < 1 := by
        have : (t2 - t1) * (1 / 6) < 1 := by linarith
        linarith
      have := min_le_right (1 : ℚ) ((0 : ℚ) + (t2 - t1) * (1 / 6))
      linarith
    unfold AllowHTTP getHTTPLimiter bucketAllow bucketAdvance
    dsimp only
    rw [hfind1]
    dsimp only
    rw [if_neg htok]
  refine ⟨by rw [hfirstLLM], ?_, by rw [hfirstHTTP], ?_⟩
  · intro hlt
    rw [hfirstLLM]
    exact hsecondLLM hlt
  · intro hlt
    rw [hfirstHTTP]
    exact hsecondHTTP hlt

/-- C9 (witness): the theorem at clock times 0, 0, 0 for the host
`example.com`. -/
theorem C9_witness :
    ((AllowLLM (NewRateLimiter 0) 0).1 = true) ∧
    ((AllowLLM (AllowLLM (NewRateLimiter 0) 0).2 0).1 = false) ∧
    ((AllowHTTP (NewRateLimiter 0) "example.com" 0).1 = true) ∧
    ((AllowHTTP (AllowHTTP (NewRateLimiter 0) "example.com" 0).2 "example.com" 0).1
      = false) := by
  have h := C9_rate_limiter_burst 0 0 0 "example.com" (le_refl 0) (le_refl 0)
  exact ⟨h.1, h.2.1 (by norm_num), h.2.2.1, h.2.2.2 (by norm_num)⟩

/-! ## Claim C10: OrderFallbacksByReliability frame -/

/-- C10: at the store level, `OrderFallbacksByReliability` returns a sorted
slice at the freshly allocated address — distinct from the input's address —
and the input slice is unchanged, same elements in the same positions; the
returned slice is the insertion sort of the input's contents. -/
theorem C10_order_fallbacks_frame (σ : SliceStore) (inp fresh : Nat)
    (hne : inp ≠ fresh) :
    ((OrderFallbacksByReliabilityH σ inp fresh).1 inp = σ inp) ∧
    ((OrderFallbacksByReliabilityH σ inp fresh).2 = fresh) ∧
    ((OrderFallbacksByReliabilityH σ inp fresh).2 ≠ inp) ∧
    ((OrderFallbacksByReliabilityH σ inp fresh).1
        ((OrderFallbacksByReliabilityH σ inp fresh).2) =
      OrderFallbacksByReliability (σ inp)) ∧
    (OrderFallbacksByReliability (σ inp)).Pairwise
      (fun a b => a.Reliability ≤ b.Reliability) := by
  unfold OrderFallbacksByReliabilityH
  refine ⟨?_, rfl, fun h => hne h.symm, ?_, ?_⟩
  · simp [hne]
  · simp [OrderFallbacksByReliability]
  · exact insertionSortGo_sorted _ _

/-! ## Claim C6: prefix-insensitive version comparison -/

theorem length_dropWhile_le' (p : Char → Bool) (l : List Char) :
    (l.dropWhile p).length ≤ l.length := by
  induction l with
  | nil => simp
  | cons c cs ih =>
    rw [List.dropWhile_cons]
    by_cases h : p c
    · simp only [if_pos h]
      simp only [List.length_cons]
      omega
    · simp [h]

theorem dropWhile_eq_self_of_length (p : Char → Bool) (l : List Char)
    (h : (l.dropWhile p).length = l.length) : l.dropWhile p = l := by
  cases l with
  | nil => rfl
  | cons c cs =>
    rw [List.dropWhile_cons] at h ⊢
    by_cases hc : p c
    · exfalso
      rw [if_pos hc] at h
      have := length_dropWhile_le' p cs
      simp [List.length_cons] at h
      omega
    · rw [if_neg hc]

/-- A string fixed by `trimSpaceGo` has no leading and no trailing space. -/
theorem trimmed_facts (v : String) (h : trimSpaceGo v = v) :
    v.data.dropWhile isSpaceGo = v.data ∧
    v.data.reverse.dropWhile isSpaceGo = v.data.reverse := by
  have hdata : ((v.data.dropWhile isSpaceGo).reverse.dropWhile isSpaceGo).reverse
      = v.data := congrArg String.data h
  have hlen2 : ((v.data.dropWhile isSpaceGo).reverse.dropWhile isSpaceGo).length
      = v.data.length := by
    have := congrArg List.length hdata
    simpa using this
  have hle1 : (v.data.dropWhile isSpaceGo).length ≤ v.data.length :=
    length_dropWhile_le' _ _
  have hle2 : ((v.data.dropWhile isSpaceGo).reverse.dropWhile isSpaceGo).length
      ≤ (v.data.dropWhile isSpaceGo).reverse.length :=
    length_dropWhile_le' _ _
  have hlen1 : (v.data.dropWhile isSpaceGo).length = v.data.length := by
    simp only [List.length_reverse] at hle2
    omega
  have h1 : v.data.dropWhile isSpaceGo = v.data :=
    dropWhile_eq_self_of_length _ _ hlen1
  refine ⟨h1, ?_⟩
  have h2 : (v.data.dropWhile isSpaceGo).reverse.dropWhile isSpaceGo
      = (v.data.dropWhile isSpaceGo).reverse := by
    apply dropWhile_eq_self_of_length
    simp only [List.length_reverse]
    omega
  rw [h1] at h2
  exact h2

theorem dropWhile_append_self (p : Char → Bool) (l m : List Char)
    (hl : l.dropWhile p = l) (hm : l = [] → m.dropWhile p = m) :
    (l ++ m).dropWhile p = l ++ m := by
  cases l with
  | nil => simpa using hm rfl
  | cons c cs =>
    have hc : p c = false := by
      by_contra hcc
      have hc' : p c = true := by
        cases hpc : p c
        · exact absurd hpc hcc
        · rfl
      rw [List.dropWhile_cons, if_pos hc'] at hl
      have := length_dropWhile_le' p cs
      have := congrArg List.length hl
      simp [List.length_cons] at this
      omega
    rw [List.cons_append, List.dropWhile_cons, if_neg (by simp [hc])]

/-- Prepending a non-space character to a trimmed string keeps it trimmed. -/
theorem trimSpaceGo_cons (c : Char) (v : String) (hc : isSpaceGo c = false)
    (h : trimSpaceGo v = v) : trimSpaceGo ⟨c :: v.data⟩ = ⟨c :: v.data⟩ := by
  obtain ⟨h1, h2⟩ := trimmed_facts v h
  unfold trimSpaceGo
  show (⟨(((c :: v.data).dropWhile isSpaceGo).reverse.dropWhile isSpaceGo).reverse⟩ : String)
      = ⟨c :: v.data⟩
  rw [List.dropWhile_cons, if_neg (by simp [hc])]
  rw [List.reverse_cons]
  rw [dropWhile_append_self isSpaceGo v.data.reverse [c] h2
    (fun _ => by rw [List.dropWhile_cons, if_neg (by simp [hc])])]
  simp

/-- Prepending `"v"` to a string whose own head does not complete a longer
recognised prefix strips back to the string itself. -/
theorem stripVersionPrefixGo_v_cons (v : String)
    (h1 : hasPrefixGo v "ersion-" = false)
    (h2 : hasPrefixGo v "er-" = false)
    (h3 : hasPrefixGo v "er." = false) :
    stripVersionPrefixGo ("v" ++ v) = v := by
  have hvcons : ("v" ++ v) = (⟨'v' :: v.data⟩ : String) := by
    rcases v with ⟨l⟩
    rfl
  have e1 : listHasPfx ('v' :: v.data) "version-".data =
      ((('v' : Char) = 'v' : Bool) && listHasPfx v.data "ersion-".data) := rfl
  have e5 : listHasPfx ('v' :: v.data) "ver-".data =
      ((('v' : Char) = 'v' : Bool) && listHasPfx v.data "er-".data) := rfl
  have e7 : listHasPfx ('v' :: v.data) "ver.".data =
      ((('v' : Char) = 'v' : Bool) && listHasPfx v.data "er.".data) := rfl
  have h1' : listHasPfx v.data "ersion-".data = false := h1
  have h2' : listHasPfx v.data "er-".data = false := h2
  have h3' : listHasPfx v.data "er.".data = false := h3
  have hp1 : hasPrefixGo ("v" ++ v) "version-" = false := by
    rw [hvcons]
    unfold hasPrefixGo
    rw [e1, h1']
    simp
  have hp2 : hasPrefixGo ("v" ++ v) "Version-" = false := by
    rw [hvcons]; rfl
  have hp3 : hasPrefixGo ("v" ++ v) "release-" = false := by
    rw [hvcons]; rfl
  have hp4 : hasPrefixGo ("v" ++ v) "Release-" = false := by
    rw [hvcons]; rfl
  have hp5 : hasPrefixGo ("v" ++ v) "ver-" = false := by
    rw [hvcons]
    unfold hasPrefixGo
    rw [e5, h2']
    simp
  have hp6 : hasPrefixGo ("v" ++ v) "Ver-" = false := by
    rw [hvcons]; rfl
  have hp7 : hasPrefixGo ("v" ++ v) "ver." = false := by
    rw [hvcons]
    unfold hasPrefixGo
    rw [e7, h3']
    simp
  have hp8 : hasPrefixGo ("v" ++ v) "Ver." = false := by
    rw [hvcons]; rfl
  have hnil : ∀ l : List Char, listHasPfx l [] = true := fun l => by cases l <;> rfl
  have hp9 : hasPrefixGo ("v" ++ v) "v" = true := by
    rw [hvcons]
    unfold hasPrefixGo
    have e9 : listHasPfx ('v' :: v.data) "v".data =
        ((('v' : Char) = 'v' : Bool) && listHasPfx v.data []) := rfl
    rw [e9, hnil]
    simp
  unfold stripVersionPrefixGo versionPrefixes
  simp only [stripFirstPfx, hp1, hp2, hp3, hp4, hp5, hp6, hp7, hp8, hp9,
    Bool.false_eq_true, if_false, if_true]
  unfold trimPrefixGo
  rw [hp9]
  simp only [if_pos rfl]
  rw [hvcons]
  show (⟨(('v' :: v.data).drop "v".data.length)⟩ : String) = v
  rcases v with ⟨l⟩
  rfl

/-- C6 (counterexample): stripping happens once per side, so for `v = "v1"`
the extracted `"v" + v = "vv1"` strips to `"v1"` while the recorded `"v1"`
strips to `"1"` — the comparison does not match, contradicting the claim for
the version string `"v1"`. -/
theorem C6_counterexample :
    compareVersionStrings ("v" ++ "v1") "v1" = false ∧
    (ValidateSchema (.ok ("v" ++ "v1")) "v1").VersionsMatch = false ∧
    (ValidateSchema (.ok ("v" ++ "v1")) "v1").Valid = false := by
  refine ⟨?_, ?_, ?_⟩ <;> decide

/-- C6 (amended): for every version string v that is whitespace-trimmed, is
not itself carrying a recognised version prefix, and does not begin with
`ersion-`, `er-` or `er.` (which would make `"v" + v` start with a longer
recognised prefix), comparing an extracted `"v" + v` against a recorded `v`
yields a match: `VersionsMatch = true` and the validation is valid. -/
theorem C6_prefix_insensitive (v : String)
    (htrim : normalizeVersion v = v)
    (hstrip : stripVersionPrefixGo v = v)
    (h1 : hasPrefixGo v "ersion-" = false)
    (h2 : hasPrefixGo v "er-" = false)
    (h3 : hasPrefixGo v "er." = false) :
    compareVersionStrings ("v" ++ v) v = true ∧
    (ValidateSchema (.ok ("v" ++ v)) v).VersionsMatch = true ∧
    (ValidateSchema (.ok ("v" ++ v)) v).Valid = true := by
  have hvcons : ("v" ++ v) = (⟨'v' :: v.data⟩ : String) := by
    rcases v with ⟨l⟩
    rfl
  have htrim2 : normalizeVersion ("v" ++ v) = ("v" ++ v) := by
    rw [hvcons]
    exact trimSpaceGo_cons 'v' v (by decide) htrim
  have hstrip2 : stripVersionPrefixGo ("v" ++ v) = v :=
    stripVersionPrefixGo_v_cons v h1 h2 h3
  have hcmp : compareVersionStrings ("v" ++ v) v = true := by
    rw [compareVersionStrings_eq_specNormalForm]
    simp [specNormalForm, htrim2, hstrip2, htrim, hstrip]
  refine ⟨hcmp, ?_, ?_⟩ <;>
    simp [ValidateSchema, TestExtraction, htrim2, hcmp]

/-- C6 (witness): the amended theorem at the plain version string `1.2.3`. -/
theorem C6_witness :
    compareVersionStrings ("v" ++ "1.2.3") "1.2.3" = true :=
  (C6_prefix_insensitive "1.2.3" (by decide) (by decide) (by decide) (by decide)
    (by decide)).1

/-- C10 (witness): the theorem at a concrete two-element store. -/
theorem C10_witness :
    ((OrderFallbacksByReliabilityH
        (fun _ => [⟨"llm", 4, "r1"⟩, ⟨"json", 1, "r2"⟩]) 0 1).1 0 =
      [⟨"llm", 4, "r1"⟩, ⟨"json", 1, "r2"⟩]) ∧
    ((OrderFallbacksByReliabilityH
        (fun _ => [⟨"llm", 4, "r1"⟩, ⟨"json", 1, "r2"⟩]) 0 1).2 = 1) := by
  have h := C10_order_fallbacks_frame
    (fun _ => [⟨"llm", 4, "r1"⟩, ⟨"json", 1, "r2"⟩]) 0 1 (by decide)
  exact ⟨h.1, h.2.1⟩

end Bentoo
